import Mathlib

/-!
# Verification of the Quizly quiz-generation pipeline

Shallow embedding of `main_app/services/pipeline.py`:
Python/JSON values are modelled by the inductive `JVal`, Python `dict`s by
insertion-ordered association lists, raising code by `Except PyErr`, and the
external subprocess / Gemini-client / `json.loads` boundaries by explicitly
passed oracles.
-/

set_option maxRecDepth 20000
set_option autoImplicit false

namespace Quizly

/-- Python exception kinds that the pipeline code can raise.
`pipelineError` models `QuizPipelineError(msg)`; the others model the
built-in exceptions Python raises for ill-typed operations. -/
inductive PyErr where
  | attributeError
  | typeError
  | keyError
  | indexError
  | pipelineError (msg : String)
  deriving DecidableEq, Repr

/-- JSON / Python values as produced by `json.loads`: `None`, booleans,
(integer) numbers, strings, lists, and insertion-ordered dicts with string
keys.  JSON fractional numbers are outside the model; no claim depends on
them. -/
inductive JVal where
  | null
  | bool (b : Bool)
  | num (n : Int)
  | str (s : String)
  | arr (xs : List JVal)
  | obj (kvs : List (String × JVal))

mutual

/-- Boolean equality on `JVal` (models Python `==` on JSON values). -/
def JVal.beq : JVal → JVal → Bool
  | .null, .null => true
  | .bool a, .bool b => a == b
  | .num a, .num b => a == b
  | .str a, .str b => a == b
  | .arr xs, .arr ys => JVal.beqList xs ys
  | .obj a, .obj b => JVal.beqKvs a b
  | _, _ => false

/-- Pointwise equality of value lists. -/
def JVal.beqList : List JVal → List JVal → Bool
  | [], [] => true
  | x :: xs, y :: ys => JVal.beq x y && JVal.beqList xs ys
  | _, _ => false

/-- Pointwise equality of key-value lists. -/
def JVal.beqKvs : List (String × JVal) → List (String × JVal) → Bool
  | [], [] => true
  | (k, v) :: xs, (k', v') :: ys => k == k' && JVal.beq v v' && JVal.beqKvs xs ys
  | _, _ => false

end

instance : BEq JVal := ⟨JVal.beq⟩

/-- Induction over `JVal` with pointwise hypotheses for the nested lists. -/
def JVal.ind {motive : JVal → Prop}
    (hnull : motive .null)
    (hbool : ∀ b, motive (.bool b))
    (hnum : ∀ n, motive (.num n))
    (hstr : ∀ s, motive (.str s))
    (harr : ∀ xs, (∀ v ∈ xs, motive v) → motive (.arr xs))
    (hobj : ∀ kvs, (∀ kv ∈ kvs, motive (Prod.snd kv)) → motive (.obj kvs)) :
    ∀ v, motive v
  | .null => hnull
  | .bool b => hbool b
  | .num n => hnum n
  | .str s => hstr s
  | .arr xs =>
      harr xs (fun v _ => JVal.ind hnull hbool hnum hstr harr hobj v)
  | .obj kvs =>
      hobj kvs (fun kv _ => JVal.ind hnull hbool hnum hstr harr hobj kv.2)
  termination_by v => sizeOf v
  decreasing_by
  · have := List.sizeOf_lt_of_mem (by assumption : v ∈ xs)
    simp only [JVal.arr.sizeOf_spec]
    omega
  · have h1 := List.sizeOf_lt_of_mem (by assumption : kv ∈ kvs)
    have h2 : sizeOf kv.2 < sizeOf kv := by
      obtain ⟨a, b⟩ := kv
      simp only [Prod.mk.sizeOf_spec]
      omega
    simp only [JVal.obj.sizeOf_spec]
    omega

/-- `beqList` is equality when element comparison is. -/
def JVal.beqList_iff (xs : List JVal)
    (ih : ∀ v ∈ xs, ∀ w, (JVal.beq v w = true) ↔ v = w) :
    ∀ ys, (JVal.beqList xs ys = true) ↔ xs = ys := by
  induction xs with
  | nil => intro ys; cases ys <;> simp [JVal.beqList]
  | cons x xs ihx =>
      intro ys
      cases ys with
      | nil => simp [JVal.beqList]
      | cons y ys =>
          have hx := ih x (List.mem_cons_self x xs) y
          have hrest := ihx (fun v hv w => ih v (List.mem_cons_of_mem x hv) w) ys
          simp [JVal.beqList, hx, hrest]

/-- `beqKvs` is equality when value comparison is. -/
def JVal.beqKvs_iff (kvs : List (String × JVal))
    (ih : ∀ kv ∈ kvs, ∀ w, (JVal.beq (Prod.snd kv) w = true) ↔ Prod.snd kv = w) :
    ∀ ys, (JVal.beqKvs kvs ys = true) ↔ kvs = ys := by
  induction kvs with
  | nil => intro ys; cases ys <;> simp [JVal.beqKvs]
  | cons kv kvs ihx =>
      intro ys
      cases ys with
      | nil => obtain ⟨k, v⟩ := kv; simp [JVal.beqKvs]
      | cons kv' ys =>
          obtain ⟨k, v⟩ := kv
          obtain ⟨k', v'⟩ := kv'
          have hx := ih (k, v) (List.mem_cons_self (k, v) kvs) v'
          have hrest := ihx (fun kv hv w => ih kv (List.mem_cons_of_mem (k, v) hv) w) ys
          simp only [JVal.beqKvs, Bool.and_eq_true, beq_iff_eq, List.cons.injEq,
            Prod.mk.injEq]
          constructor
          · rintro ⟨⟨h1, h2⟩, h3⟩
            exact ⟨⟨h1, (hx.mp h2)⟩, (hrest.mp h3)⟩
          · rintro ⟨⟨h1, h2⟩, h3⟩
            exact ⟨⟨h1, hx.mpr h2⟩, hrest.mpr h3⟩

/-- `JVal.beq` decides equality. -/
def JVal.beq_iff : ∀ v w : JVal, (JVal.beq v w = true) ↔ v = w := by
  intro v
  induction v using JVal.ind with
  | hnull => intro w; cases w <;> simp [JVal.beq]
  | hbool b => intro w; cases w <;> simp [JVal.beq]
  | hnum n => intro w; cases w <;> simp [JVal.beq]
  | hstr s => intro w; cases w <;> simp [JVal.beq]
  | harr xs ih =>
      intro w
      cases w <;> simp [JVal.beq]
      exact JVal.beqList_iff xs ih _
  | hobj kvs ih =>
      intro w
      cases w <;> simp [JVal.beq]
      exact JVal.beqKvs_iff kvs ih _

instance : LawfulBEq JVal where
  eq_of_beq h := (JVal.beq_iff _ _).mp h
  rfl := (JVal.beq_iff _ _).mpr rfl

instance : DecidableEq JVal := fun v w => decidable_of_iff _ (JVal.beq_iff v w)

/-- Python's ASCII whitespace (`str.strip` default set and ASCII `\s`):
space, tab, newline, carriage return, vertical tab, form feed. -/
def isPyWs (c : Char) : Bool :=
  c = ' ' || c = '\t' || c = '\n' || c = '\x0d' || c = '\x0b' || c = '\x0c'

/-- Drop the trailing run of characters satisfying `p`. -/
def dropTrailWhile (p : Char → Bool) (l : List Char) : List Char :=
  (l.reverse.dropWhile p).reverse

/-- Python `s.strip()`: remove leading and trailing whitespace. -/
def pyStrip (l : List Char) : List Char :=
  dropTrailWhile isPyWs (l.dropWhile isPyWs)

/-- Dict lookup, `d[k]`-style: first (= unique) binding for `k`. -/
def dictGet? (kvs : List (String × JVal)) (k : String) : Option JVal :=
  (kvs.find? (fun kv => kv.1 = k)).map (fun kv => kv.2)

/-- Python `d[k] = v`: replace the value in place if the key exists
(keeping its position), else append the binding. -/
def dictSet (kvs : List (String × JVal)) (k : String) (v : JVal) :
    List (String × JVal) :=
  if kvs.any (fun kv => kv.1 = k) then
    kvs.map (fun kv => if kv.1 = k then (k, v) else kv)
  else
    kvs ++ [(k, v)]

/-- Python truthiness of a JSON value (`bool(x)`). -/
def pyTruthy : JVal → Bool
  | .null => false
  | .bool b => b
  | .num n => n ≠ 0
  | .str s => s ≠ ""
  | .arr xs => xs ≠ []
  | .obj kvs => kvs ≠ []

/-- Python `len(x)` for sized values; `TypeError` otherwise. -/
def pyLen : JVal → Except PyErr Nat
  | .arr xs => .ok xs.length
  | .str s => .ok s.length
  | .obj kvs => .ok kvs.length
  | _ => .error .typeError

/-- Decidable substring test on character lists (Python `t in s` for
strings): some contiguous slice of `s` equals `t`. -/
def isSubstring (t s : List Char) : Bool :=
  (List.range (s.length + 1)).any (fun i => (s.drop i).take t.length = t)

/-- Python `x in c` for the containers `json.loads` can produce:
list membership via `==`, string substring test (`TypeError` when the
needle is not a string), dict key membership (`TypeError` for unhashable
needles); `TypeError` for non-container values. -/
def pyIn (x : JVal) (c : JVal) : Except PyErr Bool :=
  match c with
  | .arr xs => .ok (xs.contains x)
  | .str s =>
      match x with
      | .str t => .ok (isSubstring t.data s.data)
      | _ => .error .typeError
  | .obj kvs =>
      match x with
      | .str t => .ok (kvs.any (fun kv => kv.1 = t))
      | .arr _ => .error .typeError
      | .obj _ => .error .typeError
      | _ => .ok false
  | _ => .error .typeError

/-- Python `c[i]` for a non-negative integer index already known to be
below `len(c)`: list element, one-character string, `KeyError` for a dict
(JSON dict keys are strings, so an integer key is absent). -/
def pyGetItem (c : JVal) (i : Nat) : Except PyErr JVal :=
  match c with
  | .arr xs => if h : i < xs.length then .ok (xs.get ⟨i, h⟩) else .error .indexError
  | .str s =>
      if h : i < s.data.length then .ok (.str (String.mk [s.data.get ⟨i, h⟩]))
      else .error .indexError
  | .obj _ => .error .keyError
  | _ => .error .typeError

/-- Python `for x in c`: lists yield elements, strings yield one-character
strings, dicts yield their keys; other values raise `TypeError`. -/
def toIterable : JVal → Except PyErr (List JVal)
  | .arr xs => .ok xs
  | .str s => .ok (s.data.map (fun c => .str (String.mk [c])))
  | .obj kvs => .ok (kvs.map (fun kv => .str kv.1))
  | _ => .error .typeError

/-- The characters actually matched by the trailing character class of
`_normalize_text`'s `re.sub(r"[\\s\\.,;:!?'\"` + backtick + `]+$", '', t)`.
The pattern is a *raw* string, so `\\s` is an escaped backslash followed by
a literal letter `s`; the class therefore contains a backslash and the
letter `s`, and no whitespace. -/
def normStripSet : List Char :=
  ['\\', 's', '.', ',', ';', ':', '!', '?', '\'', '"', '`']

/-- Embeds `_normalize_text` on strings (pipeline.py lines 17-27):
`t = s.strip().lower()` then remove the trailing run of characters from
the regex class. -/
def normalize_text (s : String) : String :=
  let t := (pyStrip s.data).map Char.toLower
  String.mk (dropTrailWhile (fun c => c ∈ normStripSet) t)

/-- `_normalize_text` on an arbitrary value: the `isinstance(s, str)` guard
returns `''` for every non-string input. -/
def normalize_val : JVal → String
  | .str s => normalize_text s
  | _ => ""

/-- Embeds `_answer_index_from_token` (pipeline.py lines 30-45): interpret
the answer as an index token via the four fixed synonym sets. -/
def answer_index_from_token (ans : JVal) : Option Nat :=
  let a := normalize_val ans
  if a ∈ ["a", "1", "option a", "a)", "(a)", "a.", "answera"] then some 0
  else if a ∈ ["b", "2", "option b", "b)", "(b)", "b.", "answerb"] then some 1
  else if a ∈ ["c", "3", "option c", "c)", "(c)", "c.", "answerc"] then some 2
  else if a ∈ ["d", "4", "option d", "d)", "(d)", "d.", "answerd"] then some 3
  else none

/-- The normalized-comparison loop of `_repair_quiz_payload` (step 2,
pipeline.py lines 73-85): adopt the first option whose normalized form
equals the normalized answer; otherwise leave the question unchanged. -/
def normalized_repair (kvs : List (String × JVal)) (opts ans : JVal) :
    Except PyErr JVal :=
  let normAns := normalize_val ans
  match toIterable opts with
  | .error e => .error e
  | .ok items =>
      match items.find? (fun opt => normalize_val opt = normAns) with
      | some opt => .ok (.obj (dictSet kvs "answer" opt))
      | none => .ok (.obj kvs)

/-- The per-question body of `_repair_quiz_payload`'s loop
(pipeline.py lines 59-85): exact-match check, then index/letter-token
mapping, then normalized comparison.  Non-dict questions raise
`AttributeError` at `q.get`. -/
def repair_question (q : JVal) : Except PyErr JVal :=
  match q with
  | .obj kvs =>
      let optsRaw := (dictGet? kvs "options").getD .null
      let opts := if pyTruthy optsRaw then optsRaw else .arr []
      let ans := (dictGet? kvs "answer").getD (.str "")
      match pyIn ans opts with
      | .error e => .error e
      | .ok true => .ok (.obj kvs)
      | .ok false =>
          match answer_index_from_token ans with
          | some idx =>
              match pyLen opts with
              | .error e => .error e
              | .ok n =>
                  if idx < n then
                    match pyGetItem opts idx with
                    | .error e => .error e
                    | .ok v => .ok (.obj (dictSet kvs "answer" v))
                  else normalized_repair kvs opts ans
          | none => normalized_repair kvs opts ans
  | _ => .error .attributeError

/-- Process the questions of `_repair_quiz_payload` in order, stopping at
the first raised exception. -/
def repair_questions : List JVal → Except PyErr (List JVal)
  | [] => .ok []
  | q :: rest =>
      match repair_question q with
      | .error e => .error e
      | .ok q' =>
          match repair_questions rest with
          | .error e => .error e
          | .ok rest' => .ok (q' :: rest')

/-- Embeds `_repair_quiz_payload` (pipeline.py lines 48-87).
`payload.get('questions', [])` raises `AttributeError` on non-dict
payloads; iterating a non-list `questions` value raises unless the
iteration is empty (empty string / empty dict). -/
def repair_quiz_payload (payload : JVal) : Except PyErr JVal :=
  match payload with
  | .obj kvs =>
      match dictGet? kvs "questions" with
      | none => .ok (.obj kvs)
      | some (.arr xs) =>
          match repair_questions xs with
          | .error e => .error e
          | .ok xs' => .ok (.obj (dictSet kvs "questions" (.arr xs')))
      | some (.str s) => if s = "" then .ok (.obj kvs) else .error .attributeError
      | some (.obj kvs2) => if kvs2 = [] then .ok (.obj kvs) else .error .attributeError
      | some _ => .error .typeError
  | _ => .error .attributeError

/-- The per-question body of the shape-check loop in
`generate_quiz_with_gemini` (pipeline.py lines 196-201):
`opts = q.get('options', [])`, option-count check, answer-membership
check. -/
def check_question (q : JVal) : Except PyErr Unit :=
  match q with
  | .obj kvs =>
      let opts := (dictGet? kvs "options").getD (.arr [])
      match pyLen opts with
      | .error e => .error e
      | .ok n =>
          if n ≠ 4 then .error (.pipelineError "Each question must have 4 options.")
          else
            let ans := (dictGet? kvs "answer").getD .null
            match pyIn ans opts with
            | .error e => .error e
            | .ok true => .ok ()
            | .ok false => .error (.pipelineError "Answer must be one of the options.")
  | _ => .error .attributeError

/-- Run `check_question` over the questions in order; the first violation
raises and stops processing. -/
def check_questions : List JVal → Except PyErr Unit
  | [] => .ok ()
  | q :: rest =>
      match check_question q with
      | .error e => .error e
      | .ok _ => check_questions rest

/-- Python `payload[k]` for a string subscript: dict lookup (`KeyError`
when absent); lists and strings reject string indices with `TypeError`. -/
def pySubscriptStr (payload : JVal) (k : String) : Except PyErr JVal :=
  match payload with
  | .obj kvs =>
      match dictGet? kvs k with
      | some v => .ok v
      | none => .error .keyError
  | _ => .error .typeError

/-- Embeds the shape-check block of `generate_quiz_with_gemini`
(pipeline.py lines 194-203): `'questions' not in payload or
len(payload['questions']) != 10` raises the count error, then each
question is checked in order, and the payload is returned unchanged. -/
def validate_quiz_payload (payload : JVal) : Except PyErr JVal :=
  match pyIn (.str "questions") payload with
  | .error e => .error e
  | .ok false => .error (.pipelineError "Model did not produce exactly 10 questions.")
  | .ok true =>
      match pySubscriptStr payload "questions" with
      | .error e => .error e
      | .ok qv =>
          match pyLen qv with
          | .error e => .error e
          | .ok n =>
              if n ≠ 10 then
                .error (.pipelineError "Model did not produce exactly 10 questions.")
              else
                match toIterable qv with
                | .error e => .error e
                | .ok qs =>
                    match check_questions qs with
                    | .error e => .error e
                    | .ok _ => .ok payload

/-! ## Model of `json.loads`

`json.loads` is the Python standard library, not repository code; the
pipeline only needs it as an oracle `String → Option JVal`.  All theorems
about `_parse_json_loose` are stated for an arbitrary oracle; `jsonLoads`
below is an executable model used to evaluate the pipeline at concrete
inputs (strict JSON: no escape sequences inside strings and integer
numerals only, which covers every input used in this development). -/

/-- JSON whitespace (RFC 8259): space, tab, newline, carriage return. -/
def isJsonWs (c : Char) : Bool :=
  c = ' ' || c = '\t' || c = '\n' || c = '\x0d'

/-- Build a JSON object from parsed members the way Python does: a later
duplicate key overwrites the earlier one in place. -/
def objOfMembers (ms : List (String × JVal)) : List (String × JVal) :=
  ms.foldl (fun acc kv => dictSet acc kv.1 kv.2) []

/-- String body after the opening quote: plain characters up to the
closing quote; escape sequences and control characters are outside the
model and fail. -/
def parseStringBody : List Char → List Char → Option (JVal × List Char)
  | [], _ => none
  | c :: rest, acc =>
      if c = '"' then some (.str (String.mk acc.reverse), rest)
      else if c = '\\' then none
      else if c.toNat < 32 then none
      else parseStringBody rest (c :: acc)

/-- A run of decimal digits as a number (integer numerals only; a
following `.`, `e` or `E` is a fractional literal outside the model). -/
def parseNat (cs : List Char) : Option (Nat × List Char) :=
  let digits := cs.takeWhile Char.isDigit
  let rest := cs.drop digits.length
  if digits = [] then none
  else
    match rest with
    | c :: _ => if c = '.' || c = 'e' || c = 'E' then none
                else some (digits.foldl (fun n c => n * 10 + (c.toNat - 48)) 0, rest)
    | [] => some (digits.foldl (fun n c => n * 10 + (c.toNat - 48)) 0, [])

mutual

/-- Parse one JSON value from the front of the character list
(fuel-bounded recursive descent). -/
def parseVal (fuel : Nat) (cs : List Char) : Option (JVal × List Char) :=
  match fuel with
  | 0 => none
  | fuel + 1 =>
      let cs := cs.dropWhile isJsonWs
      match cs with
      | 'n' :: 'u' :: 'l' :: 'l' :: rest => some (.null, rest)
      | 't' :: 'r' :: 'u' :: 'e' :: rest => some (.bool true, rest)
      | 'f' :: 'a' :: 'l' :: 's' :: 'e' :: rest => some (.bool false, rest)
      | '"' :: rest => parseStringBody rest []
      | '[' :: rest =>
          (match (rest.dropWhile isJsonWs) with
           | ']' :: rest' => some (.arr [], rest')
           | _ =>
              match parseElems fuel rest with
              | some (xs, rest') => some (.arr xs, rest')
              | none => none)
      | '{' :: rest =>
          (match (rest.dropWhile isJsonWs) with
           | '}' :: rest' => some (.obj [], rest')
           | _ =>
              match parseMembers fuel rest with
              | some (ms, rest') => some (.obj (objOfMembers ms), rest')
              | none => none)
      | '-' :: rest =>
          (match parseNat rest with
           | some (n, rest') => some (.num (-(n : Int)), rest')
           | none => none)
      | c :: rest =>
          if c.isDigit then
            match parseNat (c :: rest) with
            | some (n, rest') => some (.num (n : Int), rest')
            | none => none
          else none
      | [] => none

/-- Array elements: `value (',' value)*` followed by `]`. -/
def parseElems (fuel : Nat) (cs : List Char) : Option (List JVal × List Char) :=
  match fuel with
  | 0 => none
  | fuel + 1 =>
      match parseVal fuel cs with
      | none => none
      | some (v, rest) =>
          match rest.dropWhile isJsonWs with
          | ',' :: rest' =>
              (match parseElems fuel rest' with
               | some (xs, rest'') => some (v :: xs, rest'')
               | none => none)
          | ']' :: rest' => some ([v], rest')
          | _ => none

/-- Object members: `string ':' value (',' string ':' value)*` then `}`. -/
def parseMembers (fuel : Nat) (cs : List Char) :
    Option (List (String × JVal) × List Char) :=
  match fuel with
  | 0 => none
  | fuel + 1 =>
      match (cs.dropWhile isJsonWs) with
      | '"' :: rest =>
          (match parseStringBody rest [] with
           | some (.str k, rest') =>
              (match rest'.dropWhile isJsonWs with
               | ':' :: rest'' =>
                  (match parseVal fuel rest'' with
                   | none => none
                   | some (v, rest3) =>
                      match rest3.dropWhile isJsonWs with
                      | ',' :: rest4 =>
                          (match parseMembers fuel rest4 with
                           | some (ms, rest5) => some ((k, v) :: ms, rest5)
                           | none => none)
                      | '}' :: rest4 => some ([(k, v)], rest4)
                      | _ => none)
               | _ => none)
           | _ => none)
      | _ => none

end

/-- Executable model of `json.loads : str -> value`: parse one value and
require only whitespace afterwards. -/
def jsonLoads (s : String) : Option JVal :=
  match parseVal (s.length + 1) s.data with
  | some (v, rest) => if rest.dropWhile isJsonWs = [] then some v else none
  | none => none

/-! ## `_parse_json_loose` (pipeline.py lines 206-230) -/

/-- Does `cs` start with three backticks? -/
def startsFence (cs : List Char) : Bool :=
  cs.take 3 = ['`', '`', '`']

/-- Case-insensitive `json` prefix (the regex is compiled with
`re.IGNORECASE`). -/
def startsJsonTag (cs : List Char) : Bool :=
  (cs.take 4).map Char.toLower = ['j', 's', 'o', 'n']

/-- The lazy group scan of ``(\{[\s\S]*?\})``: extend the inner content one
character at a time and stop at the first `}` whose remainder is
whitespace followed by a closing fence.  Returns the group content
between the braces. -/
def fenceBody (acc : List Char) : List Char → Option (List Char)
  | [] => none
  | c :: rest =>
      if c = '}' && startsFence (rest.dropWhile isPyWs) then some acc
      else fenceBody (acc ++ [c]) rest

/-- Try to match the fenced-block regex
`` ```(?:json)?\s*(\{[\s\S]*?\})\s*``` `` at this exact position; on
success return the captured group. -/
def matchFenceAt (cs : List Char) : Option (List Char) :=
  if startsFence cs then
    let rest := cs.drop 3
    let rest := if startsJsonTag rest then rest.drop 4 else rest
    let rest := rest.dropWhile isPyWs
    match rest with
    | '{' :: body =>
        (match fenceBody [] body with
         | some inner => some ('{' :: inner ++ ['}'])
         | none => none)
    | _ => none
  else none

/-- `re.search` for the fenced-block pattern: try every start position
from the left and return the first (leftmost) match's group. -/
def searchFence : List Char → Option (List Char)
  | [] => none
  | c :: rest =>
      match matchFenceAt (c :: rest) with
      | some g => some g
      | none => searchFence rest

/-- `text.rfind(c, 0, bound)`: greatest index `< bound` holding `c`,
scanning right to left. -/
def rfindBelow (cs : List Char) (c : Char) : Nat → Option Nat
  | 0 => none
  | e + 1 => if cs.get? e = some c then some e else rfindBelow cs c e

/-- `text.find(c)`: least index holding `c`. -/
def findIdx? (cs : List Char) (c : Char) : Option Nat :=
  List.findIdx? (fun d => d = c) cs

/-- `text[s:e+1]` as a string. -/
def sliceStr (cs : List Char) (s e : Nat) : String :=
  String.mk ((cs.drop s).take (e + 1 - s))

/-- A member of `rfindBelow`'s result is below the bound. -/
def rfindBelow_lt (cs : List Char) (c : Char) :
    ∀ bound i, rfindBelow cs c bound = some i → i < bound := by
  intro bound
  induction bound with
  | zero => intro i h; simp [rfindBelow] at h
  | succ e ih =>
      intro i h
      unfold rfindBelow at h
      by_cases hc : cs.get? e = some c
      · rw [if_pos hc] at h
        have : e = i := Option.some.inj h
        omega
      · rw [if_neg hc] at h
        exact Nat.lt_succ_of_lt (ih i h)

/-- The shrink loop of strategy 3 (pipeline.py lines 225-229): try
`text[s:e+1]`, and on failure move `e` to the previous `}`.  The loop's
right boundary strictly decreases (`rfindBelow_lt`), so a fuel of `e + 1`
is never exhausted; fuel keeps the definition structurally recursive and
hence computable by reduction. -/
def tier3Loop (loads : String → Option JVal) (cs : List Char) (s : Nat) :
    Nat → Nat → Option JVal
  | 0, _ => none
  | fuel + 1, e =>
      if s ≤ e then
        match loads (sliceStr cs s e) with
        | some v => some v
        | none =>
            match rfindBelow cs '}' e with
            | some e' => tier3Loop loads cs s fuel e'
            | none => none
      else none

/-- Strategy 3 (pipeline.py lines 223-229): the span from the first `{`
to the last `}`, shrinking the right boundary on parse failure. -/
def tier3 (loads : String → Option JVal) (cs : List Char) : Option JVal :=
  match findIdx? cs '{', rfindBelow cs '}' cs.length with
  | some s, some e => tier3Loop loads cs s (e + 1) e
  | _, _ => none

/-- Embeds `_parse_json_loose` (pipeline.py lines 206-230), parameterized
by the `json.loads` oracle: direct parse, then fenced block, then the
first-`{`-to-last-`}` shrink loop, else
`QuizPipelineError("Gemini returned unexpected format (no JSON).")`. -/
def parse_json_loose (loads : String → Option JVal) (text : String) :
    Except PyErr JVal :=
  match loads text with
  | some v => .ok v
  | none =>
      let viaFence : Option JVal :=
        match searchFence text.data with
        | some g => loads (String.mk g)
        | none => none
      match viaFence with
      | some v => .ok v
      | none =>
          match tier3 loads text.data with
          | some v => .ok v
          | none => .error (.pipelineError "Gemini returned unexpected format (no JSON).")

/-! ## `download_audio_from_youtube` (pipeline.py lines 95-132)

The two subprocess invocations are modelled by an oracle mapping the
argument vector to the process's exit code; along with the stage result we
return the list of argument vectors actually invoked, in order, so that
"the transcoder is never invoked" is statable. -/

/-- Exit status of a completed subprocess (`subprocess.run(...).returncode`). -/
structure ProcResult where
  returncode : Int
  deriving DecidableEq, Repr

/-- The `yt-dlp` argument vector (pipeline.py lines 108-113). -/
def ytdlpCmd (url workdir : String) : List String :=
  ["yt-dlp", "-f", "bestaudio", "-o", workdir ++ "/audio.m4a", url]

/-- The `ffmpeg` argument vector (pipeline.py lines 120-127). -/
def ffmpegCmd (workdir : String) : List String :=
  ["ffmpeg", "-y", "-i", workdir ++ "/audio.m4a", "-ac", "1", "-ar", "16000",
   workdir ++ "/audio.wav"]

/-- Embeds `download_audio_from_youtube`: run `yt-dlp`, fail on a non-zero
exit code, then run `ffmpeg`, fail on a non-zero exit code, else return
the WAV path.  The second component is the invocation trace. -/
def download_audio_from_youtube (run : List String → ProcResult)
    (url workdir : String) : Except PyErr String × List (List String) :=
  let r1 := run (ytdlpCmd url workdir)
  if r1.returncode ≠ 0 then
    (.error (.pipelineError "Failed to download audio with yt-dlp."), [ytdlpCmd url workdir])
  else
    let r2 := run (ffmpegCmd workdir)
    if r2.returncode ≠ 0 then
      (.error (.pipelineError "Failed to convert audio with ffmpeg."),
       [ytdlpCmd url workdir, ffmpegCmd workdir])
    else
      (.ok (workdir ++ "/audio.wav"), [ytdlpCmd url workdir, ffmpegCmd workdir])

/-! ## `generate_quiz_with_gemini` (pipeline.py lines 148-203)

The Gemini SDK is an external interface: a model constructor taking the
model name and an optional generation configuration, and a generate call
returning the response's `text` attribute (possibly `None`).  Either call
may raise, which models a client whose interface rejects the arguments. -/

/-- A constructed generative model: `generate_content` takes the ordered
text parts and yields `response.text`. -/
structure GenModelI where
  generateContent : List String → Except PyErr (Option String)

/-- The `google.generativeai` module surface used by the pipeline. -/
structure GenAIInterface where
  makeModel : String → Option (List (String × String)) → Except PyErr GenModelI

/-- The generation configuration the code always passes
(pipeline.py lines 164-167); the temperature is kept symbolic as its
printed literal. -/
def generationConfig : List (String × String) :=
  [("response_mime_type", "application/json"), ("temperature", "0.3")]

/-- The fixed system prompt (pipeline.py lines 170-175). -/
def systemPrompt : String :=
  "You are a quiz generator. Create exactly 10 multiple-choice questions (4 options each)\nbased ONLY on the provided transcript. Include a short title and description.\nReturn STRICT JSON with keys: title, description, questions. Each question must have\nquestion_title, options (list of 4 strings), and answer (one of options). No extra text."

/-- Embeds `generate_quiz_with_gemini`: configuration checks, model
construction with the generation config passed unconditionally, generate
call on `[system_prompt, transcript[:15000]]`, `json.loads` with
`_parse_json_loose` fallback, repair, then the shape checks. -/
def generate_quiz_with_gemini (loads : String → Option JVal)
    (genai : Option GenAIInterface) (apiKey : Option String)
    (transcript : String) : Except PyErr JVal :=
  match genai with
  | none => .error (.pipelineError "google-generativeai package not installed.")
  | some g =>
      match apiKey with
      | none => .error (.pipelineError "GEMINI_API_KEY environment variable is missing.")
      | some key =>
          if key = "" then
            .error (.pipelineError "GEMINI_API_KEY environment variable is missing.")
          else
            match g.makeModel "gemini-1.5-flash" (some generationConfig) with
            | .error e => .error e
            | .ok model =>
                match model.generateContent [systemPrompt, transcript.take 15000] with
                | .error e => .error e
                | .ok textOpt =>
                    let text := textOpt.getD ""
                    match (match loads text with
                           | some v => Except.ok v
                           | none => parse_json_loose loads text) with
                    | .error e => .error e
                    | .ok payload =>
                        match repair_quiz_payload payload with
                        | .error e => .error e
                        | .ok payload' => validate_quiz_payload payload'

/-- A Gemini client whose model constructor accepts only the model name —
exactly the shape of the fakes in the repository's own tests
(`test_pipeline.py` / `test_pipeline_extra.py`, `def __init__(self, name)`):
passing `generation_config` raises `TypeError`. -/
def nameOnlyFakeClient : GenAIInterface where
  makeModel := fun _ cfg =>
    match cfg with
    | some _ => .error .typeError
    | none => .ok { generateContent := fun _ => .ok (some "\x7b\x7d") }

/-- Spec-side rendering of extraction strategy 3, following the spec's
words: collect every `}` position at or after the first `{`, and try the
spans in right-to-left order, the first successful parse winning. -/
def tier3_spec (loads : String → Option JVal) (cs : List Char) : Option JVal :=
  match findIdx? cs '{' with
  | none => none
  | some s =>
      (((List.range cs.length).filter
          (fun i => decide (cs.get? i = some '}') && decide (s ≤ i))).reverse).findSome?
        (fun e => loads (sliceStr cs s e))

/-- Field lookup on a question value: `None`-like for non-dicts. -/
def jGet (q : JVal) (k : String) : Option JVal :=
  match q with
  | .obj kvs => dictGet? kvs k
  | _ => none

/-- A question that passes the per-question shape checks: a dict whose
`options` (defaulting to `[]` when absent) is a list of exactly 4 entries
containing the question's `answer` (defaulting to `None` when absent). -/
def question_ok (q : JVal) : Prop :=
  ∃ kvs opts, q = .obj kvs ∧
    (dictGet? kvs "options").getD (.arr []) = .arr opts ∧
    opts.length = 4 ∧
    (dictGet? kvs "answer").getD .null ∈ opts

/-- A fully consistent question in the sense of C8: `options` present as a
list of 4 entries and `answer` present and equal to one of them. -/
def question_consistent (q : JVal) : Prop :=
  ∃ kvs opts a, q = .obj kvs ∧
    dictGet? kvs "options" = some (.arr opts) ∧
    opts.length = 4 ∧
    dictGet? kvs "answer" = some a ∧
    a ∈ opts

/-- A question shape on which repair cannot raise: a dict whose `options`
entry, when present and truthy, is a list. -/
def question_shape_ok (q : JVal) : Prop :=
  ∃ kvs, q = .obj kvs ∧
    ∀ v, dictGet? kvs "options" = some v →
      pyTruthy v = false ∨ ∃ xs, v = .arr xs

/-- A payload shape on which repair cannot raise: a dict whose
`questions` entry, when present, is a list of `question_shape_ok` dicts. -/
def payload_shape_ok (p : JVal) : Prop :=
  ∃ kvs, p = .obj kvs ∧
    ∀ v, dictGet? kvs "questions" = some v →
      ∃ xs, v = .arr xs ∧ ∀ q ∈ xs, question_shape_ok q

/-! # Theorems -/

/-! ## Basic facts about the dictionary model and Python primitives -/

theorem contains_of_mem (x : JVal) (xs : List JVal) (h : x ∈ xs) :
    xs.contains x = true :=
  List.elem_iff.mpr h

theorem not_contains_of_not_mem (x : JVal) (xs : List JVal) (h : x ∉ xs) :
    xs.contains x = false := by
  cases hc : xs.contains x with
  | false => rfl
  | true => exact absurd (List.elem_iff.mp hc) h

/-- In the key-replacing branch of `dictSet`, the first binding for `k`
becomes `(k, v)`. -/
theorem find?_mapSet_same (kvs : List (String × JVal)) (k : String) (v : JVal)
    (h : kvs.any (fun kv => kv.1 = k) = true) :
    (kvs.map (fun kv => if kv.1 = k then (k, v) else kv)).find?
      (fun kv => kv.1 = k) = some (k, v) := by
  induction kvs with
  | nil => simp at h
  | cons kv rest ih =>
      by_cases hk : kv.1 = k
      · simp [List.find?, hk]
      · have hrest : rest.any (fun kv => kv.1 = k) = true := by
          simp only [List.any_cons, Bool.or_eq_true, decide_eq_true_eq] at h
          rcases h with h | h
          · exact absurd h hk
          · exact h
        simpa [List.find?, hk] using ih hrest

/-- The key-replacing branch of `dictSet` does not disturb lookups of
other keys. -/
theorem find?_mapSet_other (kvs : List (String × JVal)) (k k' : String)
    (v : JVal) (hne : k' ≠ k) :
    (kvs.map (fun kv => if kv.1 = k then (k, v) else kv)).find?
      (fun kv => kv.1 = k') = kvs.find? (fun kv => kv.1 = k') := by
  induction kvs with
  | nil => simp
  | cons kv rest ih =>
      rw [List.map_cons, List.find?_cons, List.find?_cons]
      by_cases hk : kv.1 = k
      · have h1 : decide ((if kv.1 = k then (k, v) else kv).1 = k') = false := by
          rw [if_pos hk]
          exact decide_eq_false (fun hc => hne hc.symm)
        have h2 : decide (kv.1 = k') = false :=
          decide_eq_false (fun hc => hne (hk ▸ hc).symm)
        rw [h1, h2]
        exact ih
      · rw [if_neg hk]
        by_cases hk' : kv.1 = k'
        · rw [decide_eq_true hk']
        · rw [decide_eq_false hk']
          exact ih

theorem dictGet?_dictSet_same (kvs : List (String × JVal)) (k : String) (v : JVal) :
    dictGet? (dictSet kvs k v) k = some v := by
  unfold dictSet dictGet?
  by_cases h : kvs.any (fun kv => kv.1 = k)
  · rw [if_pos h, find?_mapSet_same kvs k v h]
    rfl
  · rw [if_neg h]
    have hnone : kvs.find? (fun kv => decide (kv.1 = k)) = none := by
      rw [List.find?_eq_none]
      intro kv hkv
      simp only [decide_eq_true_eq]
      intro hk
      exact h (List.any_eq_true.mpr ⟨kv, hkv, by simpa using hk⟩)
    rw [List.find?_append, hnone]
    simp

theorem dictGet?_dictSet_other (kvs : List (String × JVal)) (k k' : String)
    (v : JVal) (hne : k' ≠ k) :
    dictGet? (dictSet kvs k v) k' = dictGet? kvs k' := by
  unfold dictSet dictGet?
  by_cases h : kvs.any (fun kv => kv.1 = k)
  · rw [if_pos h, find?_mapSet_other kvs k k' v hne]
  · rw [if_neg h]
    rw [List.find?_append]
    have hsingle : [(k, v)].find? (fun kv => decide (kv.1 = k')) = none := by
      rw [List.find?_eq_none]
      intro kv hkv
      simp only [List.mem_singleton] at hkv
      subst hkv
      simp only [decide_eq_true_eq]
      exact fun hc => hne hc.symm
    rw [hsingle]
    simp

/-- Every binding of `k` in `dictSet kvs k v` is exactly `(k, v)`. -/
theorem dictSet_key_binding (kvs : List (String × JVal)) (k : String) (v : JVal) :
    ∀ kv ∈ dictSet kvs k v, kv.1 = k → kv = (k, v) := by
  intro kv hkv hk
  unfold dictSet at hkv
  by_cases h : kvs.any (fun kv => kv.1 = k)
  · rw [if_pos h] at hkv
    rcases List.mem_map.mp hkv with ⟨kv0, _, heq⟩
    by_cases hk0 : kv0.1 = k
    · rw [if_pos hk0] at heq
      exact heq.symm
    · rw [if_neg hk0] at heq
      exact absurd (heq ▸ hk) hk0
  · rw [if_neg h] at hkv
    rcases List.mem_append.mp hkv with hmem | hmem
    · exact absurd hk (fun hc =>
        h (List.any_eq_true.mpr ⟨kv, hmem, by simpa using hc⟩))
    · simpa using hmem

/-- The set key is present after `dictSet`. -/
theorem dictSet_any_key (kvs : List (String × JVal)) (k : String) (v : JVal) :
    (dictSet kvs k v).any (fun kv => kv.1 = k) = true := by
  unfold dictSet
  by_cases h : kvs.any (fun kv => kv.1 = k)
  · rw [if_pos h]
    rcases List.any_eq_true.mp h with ⟨kv, hkv, hk⟩
    refine List.any_eq_true.mpr ⟨(k, v), ?_, by simp⟩
    refine List.mem_map.mpr ⟨kv, hkv, ?_⟩
    simp only [decide_eq_true_eq] at hk
    simp [hk]
  · rw [if_neg h]
    exact List.any_eq_true.mpr ⟨(k, v), by simp, by simp⟩

/-- Setting a key twice to the same value is the same as setting it once. -/
theorem dictSet_idem (kvs : List (String × JVal)) (k : String) (v : JVal) :
    dictSet (dictSet kvs k v) k v = dictSet kvs k v := by
  have hprop := dictSet_key_binding kvs k v
  have hany := dictSet_any_key kvs k v
  generalize hl : dictSet kvs k v = l at hprop hany ⊢
  unfold dictSet
  rw [if_pos hany]
  have : l.map (fun kv => if kv.1 = k then (k, v) else kv) = l.map id := by
    apply List.map_congr_left
    intro kv hkv
    by_cases hk : kv.1 = k
    · rw [if_pos hk, id]
      exact (hprop kv hkv hk).symm
    · rw [if_neg hk, id]
  rw [this, List.map_id]

/-- With duplicate-free keys (every Python dict), a successful lookup
pins down every binding of that key. -/
theorem value_unique_of_nodupkeys (kvs : List (String × JVal)) (k : String)
    (v : JVal) (hnd : (kvs.map Prod.fst).Nodup)
    (hget : dictGet? kvs k = some v) :
    ∀ kv ∈ kvs, kv.1 = k → kv.2 = v := by
  induction kvs with
  | nil => simp [dictGet?] at hget
  | cons kv0 rest ih =>
      have hnd' : (rest.map Prod.fst).Nodup := (List.nodup_cons.mp hnd).2
      have hni : kv0.1 ∉ rest.map Prod.fst := (List.nodup_cons.mp hnd).1
      intro kv hkv hk
      by_cases h0 : kv0.1 = k
      · have hv0 : kv0.2 = v := by
          unfold dictGet? at hget
          rw [List.find?_cons, decide_eq_true h0] at hget
          simpa using hget
        rcases List.mem_cons.mp hkv with h | h
        · rw [h]; exact hv0
        · exfalso
          exact hni (h0 ▸ hk ▸ List.mem_map.mpr ⟨kv, h, rfl⟩)
      · have hget' : dictGet? rest k = some v := by
          unfold dictGet? at hget ⊢
          rw [List.find?_cons] at hget
          simpa [h0] using hget
        rcases List.mem_cons.mp hkv with h | h
        · exact absurd (h ▸ hk) h0
        · exact ih hnd' hget' kv h hk

/-- If the key is present and every binding of it already holds `v`,
`dictSet` is the identity. -/
theorem dictSet_eq_self (kvs : List (String × JVal)) (k : String) (v : JVal)
    (hget : dictGet? kvs k = some v)
    (h : ∀ kv ∈ kvs, kv.1 = k → kv.2 = v) :
    dictSet kvs k v = kvs := by
  have hany : kvs.any (fun kv => kv.1 = k) = true := by
    unfold dictGet? at hget
    cases hf : kvs.find? (fun kv => decide (kv.1 = k)) with
    | none => rw [hf] at hget; simp at hget
    | some kv =>
        have hmem := List.mem_of_find?_eq_some hf
        have hp := List.find?_some hf
        simp only [decide_eq_true_eq] at hp
        exact List.any_eq_true.mpr ⟨kv, hmem, by simpa using hp⟩
  unfold dictSet
  rw [if_pos hany]
  have : kvs.map (fun kv => if kv.1 = k then (k, v) else kv) = kvs.map id := by
    apply List.map_congr_left
    intro kv hkv
    by_cases hk : kv.1 = k
    · have hv := h kv hkv hk
      rw [if_pos hk, id, ← hk, ← hv]
    · rw [if_neg hk, id]
  rw [this, List.map_id]

/-! ## C1: the normalization character class -/

/-- C1: refuted on the code (code bug).  The claim says only trailing
characters from `{space, . , ; : ! ? ' " backtick}` are stripped.  The
regex `r"[\\s\\.,;:!?'\"` + backtick + `]+$"` is a raw string, so `\\s`
matches a literal backslash or the letter `s`, not whitespace: the code
strips a trailing letter `s` ("cats" becomes "cat") and keeps a trailing
space left behind by a stripped period ("hello world ." becomes
"hello world" + space). -/
theorem c1_normalize_text_at_failing_inputs :
    normalize_text "cats" = "cat" ∧
    normalize_text "hello world ." = "hello world " ∧
    normalize_text "tricky\\" = "tricky" := by
  refine ⟨?_, ?_, ?_⟩ <;> rfl

/-! ## C5: no fallback when the client rejects `generation_config` -/

/-- C5: refuted on the code (code bug).  `generate_quiz_with_gemini`
passes `generation_config` to the model constructor unconditionally, with
no try/except fallback; a client whose constructor accepts only the model
name — the exact shape of the repository's own test fakes — makes the
whole synthesis raise `TypeError` instead of falling back to a call
without the configuration. -/
theorem c5_generate_quiz_fails_on_nameonly_client :
    generate_quiz_with_gemini jsonLoads (some nameOnlyFakeClient) (some "x")
        "some transcript" = .error .typeError ∧
    (∃ m, nameOnlyFakeClient.makeModel "gemini-1.5-flash" none = .ok m) := by
  exact ⟨rfl, ⟨_, rfl⟩⟩

/-! ## C7: acquisition order and short-circuit -/

/-- C7: confirmed.  When the downloader exits non-zero the stage returns
`PipelineError("Failed to download audio with yt-dlp.")` and the
transcoder command never appears in the invocation trace; the WAV path is
returned only when the downloader and then the transcoder both exit 0,
with the trace being exactly those two invocations in order. -/
theorem c7_download_short_circuit_and_order :
    (∀ (run : List String → ProcResult) (url wd : String),
      (run (ytdlpCmd url wd)).returncode ≠ 0 →
        download_audio_from_youtube run url wd =
          (.error (.pipelineError "Failed to download audio with yt-dlp."),
           [ytdlpCmd url wd]) ∧
        ffmpegCmd wd ∉ (download_audio_from_youtube run url wd).2) ∧
    (∀ (run : List String → ProcResult) (url wd wav : String)
        (trace : List (List String)),
      download_audio_from_youtube run url wd = (.ok wav, trace) →
        (run (ytdlpCmd url wd)).returncode = 0 ∧
        (run (ffmpegCmd wd)).returncode = 0 ∧
        trace = [ytdlpCmd url wd, ffmpegCmd wd] ∧
        wav = wd ++ "/audio.wav") := by
  constructor
  · intro run url wd h1
    have hcmd : ffmpegCmd wd ≠ ytdlpCmd url wd := by
      simp [ffmpegCmd, ytdlpCmd]
    constructor
    · unfold download_audio_from_youtube
      rw [if_pos h1]
    · unfold download_audio_from_youtube
      rw [if_pos h1]
      simpa using hcmd
  · intro run url wd wav trace h
    unfold download_audio_from_youtube at h
    by_cases h1 : (run (ytdlpCmd url wd)).returncode ≠ 0
    · rw [if_pos h1] at h
      simp at h
    · rw [if_neg h1] at h
      by_cases h2 : (run (ffmpegCmd wd)).returncode ≠ 0
      · rw [if_pos h2] at h
        simp at h
      · rw [if_neg h2] at h
        simp only [Prod.mk.injEq] at h
        obtain ⟨hw, ht⟩ := h
        push_neg at h1 h2
        exact ⟨h1, h2, ht.symm, (Except.ok.inj hw).symm⟩

/-- Witness for C7 at a concrete failing downloader. -/
theorem c7_witness :
    download_audio_from_youtube (fun _ => ⟨1⟩) "https://youtu.be/x" "/tmp/wd" =
      (.error (.pipelineError "Failed to download audio with yt-dlp."),
       [ytdlpCmd "https://youtu.be/x" "/tmp/wd"]) ∧
    ffmpegCmd "/tmp/wd" ∉
      (download_audio_from_youtube (fun _ => ⟨1⟩) "https://youtu.be/x" "/tmp/wd").2 :=
  c7_download_short_circuit_and_order.1 (fun _ => ⟨1⟩) "https://youtu.be/x"
    "/tmp/wd" (by decide)

/-! ## C6: validation after repair -/

theorem dictGet?_any (kvs : List (String × JVal)) (k : String) (v : JVal)
    (hget : dictGet? kvs k = some v) :
    kvs.any (fun kv => kv.1 = k) = true := by
  unfold dictGet? at hget
  cases hf : kvs.find? (fun kv => decide (kv.1 = k)) with
  | none => rw [hf] at hget; simp at hget
  | some kv =>
      have hmem := List.mem_of_find?_eq_some hf
      have hp := List.find?_some hf
      simp only [decide_eq_true_eq] at hp
      exact List.any_eq_true.mpr ⟨kv, hmem, by simpa using hp⟩

/-- With `questions` bound to a list, validation reduces to the length
test followed by the per-question scan. -/
theorem validate_eq_scan (kvs : List (String × JVal)) (qs : List JVal)
    (hq : dictGet? kvs "questions" = some (.arr qs)) :
    validate_quiz_payload (.obj kvs) =
      (if qs.length ≠ 10 then
        .error (.pipelineError "Model did not produce exactly 10 questions.")
      else
        match check_questions qs with
        | .error e => .error e
        | .ok _ => .ok (.obj kvs)) := by
  have hany := dictGet?_any kvs "questions" (.arr qs) hq
  simp only [validate_quiz_payload, pyIn, hany, pySubscriptStr, hq, pyLen,
    toIterable]

/-- A `question_ok` question passes its shape checks. -/
theorem check_question_ok (q : JVal) (h : question_ok q) :
    check_question q = .ok () := by
  obtain ⟨kvs, opts, rfl, hopts, hlen, hans⟩ := h
  have hcont := contains_of_mem _ opts hans
  simp only [check_question, hopts, pyLen, hlen, pyIn, hcont]
  simp

/-- The scan skips a prefix of passing questions. -/
theorem check_questions_append (pre l : List JVal)
    (h : ∀ q ∈ pre, check_question q = .ok ()) :
    check_questions (pre ++ l) = check_questions l := by
  induction pre with
  | nil => simp
  | cons q rest ih =>
      have hq := h q (List.mem_cons_self q rest)
      rw [List.cons_append]
      simp only [check_questions, hq]
      exact ih (fun q' hq' => h q' (List.mem_cons_of_mem q hq'))

theorem check_questions_all_ok (qs : List JVal)
    (h : ∀ q ∈ qs, check_question q = .ok ()) :
    check_questions qs = .ok () := by
  have := check_questions_append qs [] h
  simpa using this

/-- C6: confirmed.  After repair, validation raises
"Model did not produce exactly 10 questions." whenever the questions list
does not have exactly 10 entries; raises "Each question must have 4
options." for the first (in scan order) violating question when that
question's options count differs from 4; raises "Answer must be one of
the options." when the first violating question has 4 options but its
answer is not exactly one of them; and returns the payload unchanged when
every question passes both checks.  (Per the code and spec, the first
violation in scan order wins, and the option-count check precedes the
answer check within a question.) -/
theorem c6_validation_messages :
    (∀ (kvs : List (String × JVal)) (qs : List JVal),
      dictGet? kvs "questions" = some (.arr qs) → qs.length ≠ 10 →
      validate_quiz_payload (.obj kvs) =
        .error (.pipelineError "Model did not produce exactly 10 questions.")) ∧
    (∀ (kvs qkvs : List (String × JVal)) (pre rest : List JVal) (opts : List JVal),
      dictGet? kvs "questions" = some (.arr (pre ++ .obj qkvs :: rest)) →
      (pre ++ .obj qkvs :: rest).length = 10 →
      (∀ q ∈ pre, question_ok q) →
      (dictGet? qkvs "options").getD (.arr []) = .arr opts →
      opts.length ≠ 4 →
      validate_quiz_payload (.obj kvs) =
        .error (.pipelineError "Each question must have 4 options.")) ∧
    (∀ (kvs qkvs : List (String × JVal)) (pre rest : List JVal) (opts : List JVal),
      dictGet? kvs "questions" = some (.arr (pre ++ .obj qkvs :: rest)) →
      (pre ++ .obj qkvs :: rest).length = 10 →
      (∀ q ∈ pre, question_ok q) →
      (dictGet? qkvs "options").getD (.arr []) = .arr opts →
      opts.length = 4 →
      (dictGet? qkvs "answer").getD .null ∉ opts →
      validate_quiz_payload (.obj kvs) =
        .error (.pipelineError "Answer must be one of the options.")) ∧
    (∀ (kvs : List (String × JVal)) (qs : List JVal),
      dictGet? kvs "questions" = some (.arr qs) → qs.length = 10 →
      (∀ q ∈ qs, question_ok q) →
      validate_quiz_payload (.obj kvs) = .ok (.obj kvs)) := by
  refine ⟨?_, ?_, ?_, ?_⟩
  · intro kvs qs hq hlen
    rw [validate_eq_scan kvs qs hq, if_pos hlen]
  · intro kvs qkvs pre rest opts hq hlen hpre hopts hne
    rw [validate_eq_scan _ _ hq, if_neg (by omega)]
    rw [check_questions_append pre _ (fun q hq' => check_question_ok q (hpre q hq'))]
    have : check_question (.obj qkvs) =
        .error (.pipelineError "Each question must have 4 options.") := by
      simp only [check_question, hopts, pyLen]
      rw [if_pos hne]
    simp only [check_questions, this]
  · intro kvs qkvs pre rest opts hq hlen hpre hopts hlen4 hnot
    rw [validate_eq_scan _ _ hq, if_neg (by omega)]
    rw [check_questions_append pre _ (fun q hq' => check_question_ok q (hpre q hq'))]
    have hcont := not_contains_of_not_mem _ opts hnot
    have : check_question (.obj qkvs) =
        .error (.pipelineError "Answer must be one of the options.") := by
      simp only [check_question, hopts, pyLen, hlen4, pyIn, hcont]
      simp
    simp only [check_questions, this]
  · intro kvs qs hq hlen hall
    rw [validate_eq_scan _ _ hq, if_neg (by omega)]
    rw [check_questions_all_ok qs (fun q hq' => check_question_ok q (hall q hq'))]

/-- Witness for C6 at concrete inputs: an empty questions list is
rejected with the count message, and a fully consistent 10-question
payload is returned unchanged. -/
theorem c6_witness :
    validate_quiz_payload (.obj [("questions", .arr [])]) =
      .error (.pipelineError "Model did not produce exactly 10 questions.") ∧
    validate_quiz_payload (.obj [("title", .str "T"),
      ("questions", .arr (List.replicate 10 (.obj [("options",
        .arr [.str "A", .str "B", .str "C", .str "D"]), ("answer", .str "A")])))]) =
      .ok (.obj [("title", .str "T"),
        ("questions", .arr (List.replicate 10 (.obj [("options",
          .arr [.str "A", .str "B", .str "C", .str "D"]), ("answer", .str "A")])))]) := by
  constructor
  · exact c6_validation_messages.1 [("questions", .arr [])] [] (by rfl) (by decide)
  · refine c6_validation_messages.2.2.2 _ _ (by rfl) (by simp) ?_
    intro q hq
    rw [List.eq_of_mem_replicate hq]
    exact ⟨_, [.str "A", .str "B", .str "C", .str "D"], rfl, by rfl, by rfl,
      by simp [dictGet?]⟩

/-! ## C2: normalized repair rewrites to the matching option -/

/-- C2: refuted as stated.  The answer "a" differs from the option "A"
(at position 1) only by letter case (their normalized forms agree), yet
repair rewrites it to "B": the
index/letter-token mapping runs before the normalized comparison, so "a"
is interpreted as position 0 and the answer becomes `options[0]`, not the
case-matching option. -/
theorem c2_counterexample :
    repair_quiz_payload (.obj [("questions", .arr [.obj
      [("question_title", .str "Q1"),
       ("options", .arr [.str "B", .str "A", .str "X", .str "Y"]),
       ("answer", .str "a")]])]) =
    .ok (.obj [("questions", .arr [.obj
      [("question_title", .str "Q1"),
       ("options", .arr [.str "B", .str "A", .str "X", .str "Y"]),
       ("answer", .str "B")]])]) ∧
    normalize_val (.str "a") = normalize_val (.str "A") := by
  exact ⟨rfl, rfl⟩

/-- C2 amended: for every question whose answer is not already an exact
element of its options and is not interpretable as an index/letter token,
if some option has the same normalized form as the answer (normalization
exactly as implemented: lowercase, trim, strip the trailing run of the
code's character class), repair rewrites the answer to the exact text of
the first such option. -/
theorem c2_amended_first_normalized_match :
    ∀ (kvs : List (String × JVal)) (opts : List JVal) (ans opt : JVal),
      (dictGet? kvs "options").getD .null = .arr opts →
      (dictGet? kvs "answer").getD (.str "") = ans →
      ans ∉ opts →
      answer_index_from_token ans = none →
      opts.find? (fun o => normalize_val o = normalize_val ans) = some opt →
      repair_question (.obj kvs) = .ok (.obj (dictSet kvs "answer" opt)) ∧
      opt ∈ opts ∧ normalize_val opt = normalize_val ans := by
  intro kvs opts ans opt hopts hans hnot htok hfind
  have hor : (if pyTruthy (.arr opts) then JVal.arr opts else .arr []) = .arr opts := by
    cases opts with
    | nil => simp [pyTruthy]
    | cons a l => simp [pyTruthy]
  have hcont := not_contains_of_not_mem ans opts hnot
  refine ⟨?_, List.mem_of_find?_eq_some hfind, by simpa using List.find?_some hfind⟩
  simp only [repair_question, hopts, hor, hans, pyIn, hcont, htok,
    normalized_repair, toIterable, hfind]

/-- Witness for C2 at a concrete input: answer "Paris!" is rewritten to
the exact option text "Paris". -/
theorem c2_witness :
    repair_question (.obj [("options",
        .arr [.str "Paris", .str "B", .str "C", .str "D"]),
        ("answer", .str "Paris!")]) =
      .ok (.obj (dictSet [("options",
        .arr [.str "Paris", .str "B", .str "C", .str "D"]),
        ("answer", .str "Paris!")] "answer" (.str "Paris"))) ∧
    (JVal.str "Paris") ∈ [JVal.str "Paris", .str "B", .str "C", .str "D"] ∧
    normalize_val (.str "Paris") = normalize_val (.str "Paris!") :=
  c2_amended_first_normalized_match
    [("options", .arr [.str "Paris", .str "B", .str "C", .str "D"]),
     ("answer", .str "Paris!")]
    [.str "Paris", .str "B", .str "C", .str "D"]
    (.str "Paris!") (.str "Paris") rfl rfl (by decide) rfl rfl

/-! ## C4: repair totality -/

/-- C4: refuted as stated.  Extraction can produce a top-level JSON array
(`json.loads("[]")`), and repair raises `AttributeError` on it at
`payload.get`; it likewise raises on a question that is not an object. -/
theorem c4_counterexample :
    jsonLoads "[]" = some (.arr []) ∧
    repair_quiz_payload (.arr []) = .error .attributeError ∧
    repair_quiz_payload (.obj [("questions", .arr [.str "q"])]) =
      .error .attributeError := by
  exact ⟨rfl, rfl, rfl⟩

/-- A question of repairable shape never raises. -/
theorem repair_question_total (q : JVal) (h : question_shape_ok q) :
    ∃ q', repair_question q = .ok q' := by
  obtain ⟨kvs, rfl, hopt⟩ := h
  have hor : ∃ xs, (if pyTruthy ((dictGet? kvs "options").getD .null)
      then (dictGet? kvs "options").getD .null else .arr []) = .arr xs := by
    cases hget : dictGet? kvs "options" with
    | none => exact ⟨[], by simp [Option.getD, pyTruthy]⟩
    | some v =>
        rcases hopt v hget with hf | ⟨xs, rfl⟩
        · exact ⟨[], by simp [Option.getD, hf]⟩
        · by_cases ht : pyTruthy (.arr xs)
          · exact ⟨xs, by simp [Option.getD, ht]⟩
          · exact ⟨[], by simp [Option.getD, ht]⟩
  obtain ⟨xs, hxs⟩ := hor
  simp only [repair_question, hxs]
  set ans := (dictGet? kvs "answer").getD (.str "") with hans
  simp only [pyIn]
  cases hc : xs.contains ans with
  | true => exact ⟨_, rfl⟩
  | false =>
      cases htok : answer_index_from_token ans with
      | some idx =>
          simp only [pyLen]
          by_cases hlt : idx < xs.length
          · rw [if_pos hlt]
            simp only [pyGetItem]
            rw [dif_pos hlt]
            exact ⟨_, rfl⟩
          · rw [if_neg hlt]
            simp only [normalized_repair, toIterable]
            cases hf : xs.find? (fun o => normalize_val o = normalize_val ans) with
            | some opt => exact ⟨_, rfl⟩
            | none => exact ⟨_, rfl⟩
      | none =>
          simp only [normalized_repair, toIterable]
          cases hf : xs.find? (fun o => normalize_val o = normalize_val ans) with
          | some opt => exact ⟨_, rfl⟩
          | none => exact ⟨_, rfl⟩

theorem repair_questions_total (xs : List JVal)
    (h : ∀ q ∈ xs, question_shape_ok q) :
    ∃ xs', repair_questions xs = .ok xs' := by
  induction xs with
  | nil => exact ⟨[], rfl⟩
  | cons q rest ih =>
      obtain ⟨q', hq'⟩ := repair_question_total q (h q (List.mem_cons_self q rest))
      obtain ⟨rest', hrest'⟩ := ih (fun q' hq => h q' (List.mem_cons_of_mem q hq))
      exact ⟨q' :: rest', by simp only [repair_questions, hq', hrest']⟩

/-- C4 amended: repair never raises on payloads of the shape the prompt
demands — a dict whose `questions` entry (when present) is a list of
dicts whose `options` entries (when present and truthy) are lists;
violations of the schema beyond that shape are left to validation. -/
theorem c4_amended_repair_total_on_wellformed :
    ∀ p, payload_shape_ok p → ∃ p', repair_quiz_payload p = .ok p' := by
  intro p hp
  obtain ⟨kvs, rfl, hq⟩ := hp
  cases hget : dictGet? kvs "questions" with
  | none => exact ⟨.obj kvs, by simp only [repair_quiz_payload, hget]⟩
  | some v =>
      obtain ⟨xs, rfl, hall⟩ := hq v hget
      obtain ⟨xs', hxs'⟩ := repair_questions_total xs hall
      exact ⟨.obj (dictSet kvs "questions" (.arr xs')),
        by simp only [repair_quiz_payload, hget, hxs']⟩

/-- Witness for C4 at a concrete well-shaped payload (with a non-string
answer and a short options list, so both repair strategies fail and the
question is left for validation to reject). -/
theorem c4_witness :
    ∃ p', repair_quiz_payload (.obj [("questions", .arr [.obj
      [("options", .arr [.str "A"]), ("answer", .num 3)]])]) = .ok p' := by
  refine c4_amended_repair_total_on_wellformed _ ⟨_, rfl, ?_⟩
  intro v hv
  have hv' : v = .arr [.obj [("options", .arr [.str "A"]), ("answer", .num 3)]] := by
    have : dictGet? [("questions", .arr [.obj [("options", .arr [.str "A"]),
        ("answer", .num 3)]])] "questions" =
        some (.arr [.obj [("options", .arr [.str "A"]), ("answer", .num 3)]]) := rfl
    rw [this] at hv
    exact (Option.some.inj hv).symm
  subst hv'
  refine ⟨_, rfl, ?_⟩
  intro q hq
  simp only [List.mem_singleton] at hq
  subst hq
  refine ⟨_, rfl, ?_⟩
  intro v2 hv2
  have : dictGet? [("options", .arr [.str "A"]), ("answer", .num 3)] "options" =
      some (.arr [.str "A"]) := rfl
  rw [this] at hv2
  exact Or.inr ⟨_, (Option.some.inj hv2).symm⟩

/-! ## C10: repair's frame -/

/-- A successful per-question repair acts on a dict and either leaves it
unchanged or rewrites exactly its `answer` binding. -/
theorem repair_question_shape (q q' : JVal) (h : repair_question q = .ok q') :
    ∃ kvs, q = .obj kvs ∧
      (q' = .obj kvs ∨ ∃ v, q' = .obj (dictSet kvs "answer" v)) := by
  cases q with
  | obj kvs =>
      refine ⟨kvs, rfl, ?_⟩
      simp only [repair_question, normalized_repair] at h
      repeat' split at h
      all_goals first
        | (left; exact h.symm)
        | (right; exact ⟨_, h.symm⟩)
        | (left; exact (Except.ok.inj h).symm)
        | (right; exact ⟨_, (Except.ok.inj h).symm⟩)
        | (exact absurd h (by simp))
  | null => simp [repair_question] at h
  | bool b => simp [repair_question] at h
  | num n => simp [repair_question] at h
  | str s => simp [repair_question] at h
  | arr xs => simp [repair_question] at h

/-- Non-`answer` fields of a question survive repair. -/
theorem repair_question_frame (q q' : JVal) (h : repair_question q = .ok q') :
    ∀ k, k ≠ "answer" → jGet q' k = jGet q k := by
  intro k hk
  obtain ⟨kvs, rfl, hcase | ⟨v, hset⟩⟩ := repair_question_shape q q' h
  · rw [hcase]
  · rw [hset]
    simp only [jGet]
    exact dictGet?_dictSet_other kvs "answer" k v hk

/-- The question scan relates input and output pointwise. -/
theorem repair_questions_forall₂ (xs xs' : List JVal)
    (h : repair_questions xs = .ok xs') :
    List.Forall₂ (fun q q' => repair_question q = .ok q') xs xs' := by
  induction xs generalizing xs' with
  | nil =>
      simp only [repair_questions] at h
      rw [← Except.ok.inj h]
      exact List.Forall₂.nil
  | cons q rest ih =>
      cases hq : repair_question q with
      | error e => simp [repair_questions, hq] at h
      | ok q' =>
          cases hr : repair_questions rest with
          | error e => simp [repair_questions, hq, hr] at h
          | ok rest' =>
              simp only [repair_questions, hq, hr] at h
              rw [← Except.ok.inj h]
              exact List.Forall₂.cons hq (ih rest' hr)

/-- A successful payload repair either leaves the (dict) payload
untouched (no list-valued `questions`) or rewrites exactly the
`questions` binding with the per-question scan's output. -/
theorem repair_payload_cases (kvs : List (String × JVal)) (p' : JVal)
    (h : repair_quiz_payload (.obj kvs) = .ok p') :
    (p' = .obj kvs ∧
      (dictGet? kvs "questions" = none ∨
       dictGet? kvs "questions" = some (.str "") ∨
       dictGet? kvs "questions" = some (.obj []))) ∨
    (∃ xs xs', dictGet? kvs "questions" = some (.arr xs) ∧
      repair_questions xs = .ok xs' ∧
      p' = .obj (dictSet kvs "questions" (.arr xs'))) := by
  simp only [repair_quiz_payload] at h
  split at h
  · rename_i hget
    exact Or.inl ⟨(Except.ok.inj h).symm, Or.inl hget⟩
  · rename_i xs hget
    split at h
    · simp at h
    · rename_i xs' hxs'
      right
      exact ⟨xs, xs', hget, hxs', (Except.ok.inj h).symm⟩
  · rename_i s hget
    split at h
    · rename_i hs
      subst hs
      exact Or.inl ⟨(Except.ok.inj h).symm, Or.inr (Or.inl hget)⟩
    · simp at h
  · rename_i kvs2 hget
    split at h
    · rename_i hs
      subst hs
      exact Or.inl ⟨(Except.ok.inj h).symm, Or.inr (Or.inr hget)⟩
    · simp at h
  · simp at h

/-- C10: confirmed.  For every dict payload on which repair completes,
only `answer` fields of individual questions can change: every other
payload key (`title`, `description`, ...) is looked up identically
afterwards, the questions list keeps its length and order, and each
question keeps every field other than `answer` (in particular
`question_title` and `options`). -/
theorem c10_repair_frame :
    ∀ (kvs : List (String × JVal)) (p' : JVal),
      repair_quiz_payload (.obj kvs) = .ok p' →
      ∃ kvs', p' = .obj kvs' ∧
        (∀ k, k ≠ "questions" → dictGet? kvs' k = dictGet? kvs k) ∧
        (∀ qs, dictGet? kvs "questions" = some (.arr qs) →
          ∃ qs', dictGet? kvs' "questions" = some (.arr qs') ∧
            qs'.length = qs.length ∧
            ∀ (i : Nat) (h1 : i < qs.length) (h2 : i < qs'.length),
              ∀ k, k ≠ "answer" →
                jGet (qs'.get ⟨i, h2⟩) k = jGet (qs.get ⟨i, h1⟩) k) := by
  intro kvs p' h
  rcases repair_payload_cases kvs p' h with ⟨hp', hnone⟩ | ⟨xs, xs', hget, hrq, hp'⟩
  · refine ⟨kvs, hp', fun k _ => rfl, ?_⟩
    intro qs hqs
    rcases hnone with h0 | h0 | h0 <;> rw [h0] at hqs <;> simp at hqs
  · refine ⟨dictSet kvs "questions" (.arr xs'), hp', ?_, ?_⟩
    · intro k hk
      exact dictGet?_dictSet_other kvs "questions" k (.arr xs') hk
    · intro qs hqs
      have hxe : xs = qs := by
        rw [hget] at hqs
        exact JVal.arr.inj (Option.some.inj hqs)
      subst hxe
      have hf := repair_questions_forall₂ xs xs' hrq
      refine ⟨xs', dictGet?_dictSet_same kvs "questions" (.arr xs'),
        hf.length_eq.symm, ?_⟩
      intro i h1 h2 k hk
      exact repair_question_frame _ _ (hf.get h1 h2) k hk

/-- Witness for C10 at a concrete payload whose only change is one
answer being rewritten from "a" to "A". -/
theorem c10_witness :
    ∃ kvs', (JVal.obj [("title", .str "T"), ("description", .str "D"),
        ("questions", .arr [.obj [("question_title", .str "Q"),
          ("options", .arr [.str "A", .str "B"]), ("answer", .str "A")]])]) =
        .obj kvs' ∧
      (∀ k, k ≠ "questions" →
        dictGet? kvs' k = dictGet? [("title", JVal.str "T"),
          ("description", .str "D"),
          ("questions", .arr [.obj [("question_title", .str "Q"),
            ("options", .arr [.str "A", .str "B"]), ("answer", .str "a")]])] k) ∧
      (∀ qs, dictGet? [("title", JVal.str "T"), ("description", .str "D"),
          ("questions", .arr [.obj [("question_title", .str "Q"),
            ("options", .arr [.str "A", .str "B"]), ("answer", .str "a")]])]
          "questions" = some (.arr qs) →
        ∃ qs', dictGet? kvs' "questions" = some (.arr qs') ∧
          qs'.length = qs.length ∧
          ∀ (i : Nat) (h1 : i < qs.length) (h2 : i < qs'.length),
            ∀ k, k ≠ "answer" →
              jGet (qs'.get ⟨i, h2⟩) k = jGet (qs.get ⟨i, h1⟩) k) :=
  c10_repair_frame
    [("title", .str "T"), ("description", .str "D"),
     ("questions", .arr [.obj [("question_title", .str "Q"),
       ("options", .arr [.str "A", .str "B"]), ("answer", .str "a")]])]
    (.obj [("title", .str "T"), ("description", .str "D"),
     ("questions", .arr [.obj [("question_title", .str "Q"),
       ("options", .arr [.str "A", .str "B"]), ("answer", .str "A")]])])
    rfl

/-! ## C8: repair is a no-op on consistent payloads and idempotent -/

theorem isSubstring_singleton (c : Char) (s : List Char) (h : c ∈ s) :
    isSubstring [c] s = true := by
  rcases List.mem_iff_get.mp h with ⟨⟨i, hi⟩, hget⟩
  refine List.any_eq_true.mpr ⟨i, List.mem_range.mpr (by omega), ?_⟩
  simp only [decide_eq_true_eq, List.length_singleton]
  rw [List.drop_eq_getElem_cons hi, List.take_succ_cons, List.take_zero,
    ← hget, List.get_eq_getElem]

/-- Python `in` finds any element obtained by subscripting. -/
theorem pyIn_of_getItem (c : JVal) (i : Nat) (v : JVal)
    (h : pyGetItem c i = .ok v) : pyIn v c = .ok true := by
  cases c with
  | arr xs =>
      simp only [pyGetItem] at h
      by_cases hi : i < xs.length
      · rw [dif_pos hi] at h
        have hv : v = xs.get ⟨i, hi⟩ := (Except.ok.inj h).symm
        subst hv
        simp only [pyIn]
        rw [contains_of_mem _ xs (xs.get_mem _ _)]
      · rw [dif_neg hi] at h
        simp at h
  | str s =>
      simp only [pyGetItem] at h
      by_cases hi : i < s.data.length
      · rw [dif_pos hi] at h
        have hv : v = .str (String.mk [s.data.get ⟨i, hi⟩]) := (Except.ok.inj h).symm
        subst hv
        simp only [pyIn]
        rw [isSubstring_singleton _ _ (s.data.get_mem _ _)]
      · rw [dif_neg hi] at h
        simp at h
  | obj kvs => simp [pyGetItem] at h
  | null => simp [pyGetItem] at h
  | bool b => simp [pyGetItem] at h
  | num n => simp [pyGetItem] at h

/-- Python `in` finds any element produced by iterating the container. -/
theorem pyIn_of_mem_iterable (c : JVal) (items : List JVal) (x : JVal)
    (hit : toIterable c = .ok items) (hx : x ∈ items) : pyIn x c = .ok true := by
  cases c with
  | arr xs =>
      have : items = xs := (Except.ok.inj hit).symm
      subst this
      simp only [pyIn]
      rw [contains_of_mem _ _ hx]
  | str s =>
      have : items = s.data.map (fun ch => .str (String.mk [ch])) :=
        (Except.ok.inj hit).symm
      subst this
      rcases List.mem_map.mp hx with ⟨ch, hch, hxe⟩
      subst hxe
      simp only [pyIn]
      rw [isSubstring_singleton ch s.data hch]
  | obj kvs =>
      have : items = kvs.map (fun kv => .str kv.1) := (Except.ok.inj hit).symm
      subst this
      rcases List.mem_map.mp hx with ⟨kv, hkv, hxe⟩
      subst hxe
      simp only [pyIn]
      have : kvs.any (fun kv' => kv'.1 = kv.1) = true :=
        List.any_eq_true.mpr ⟨kv, hkv, by simp⟩
      rw [this]
  | null => simp [toIterable] at hit
  | bool b => simp [toIterable] at hit
  | num n => simp [toIterable] at hit

/-- One successful repair pass per question is enough: running
`repair_question` on its own output changes nothing. -/
theorem repair_question_idem (q q' : JVal) (h : repair_question q = .ok q') :
    repair_question q' = .ok q' := by
  cases q with
  | null => simp [repair_question] at h
  | bool b => simp [repair_question] at h
  | num n => simp [repair_question] at h
  | str s => simp [repair_question] at h
  | arr xs => simp [repair_question] at h
  | obj kvs =>
      have hne : "options" ≠ "answer" := by decide
      have h1 := dictGet?_dictSet_other kvs "answer" "options"
      have h2 := dictGet?_dictSet_same kvs "answer"
      simp only [repair_question] at h
      split at h
      · exact absurd h (by simp)
      · -- exact-match branch: already an element, unchanged
        rename_i xb heqin
        obtain rfl : JVal.obj kvs = q' := Except.ok.inj h
        simp only [repair_question, heqin]
      · -- tolerant branches
        rename_i xb heqin
        split at h
        · -- an index token was recognized
          rename_i xtok idx heqtok
          split at h
          · exact absurd h (by simp)
          · rename_i xlen n heqlen
            split at h
            · -- the index is in range: answer := opts[idx]
              split at h
              · exact absurd h (by simp)
              · rename_i hlt xget v heqget
                obtain rfl : JVal.obj (dictSet kvs "answer" v) = q' := Except.ok.inj h
                have hin := pyIn_of_getItem _ idx v heqget
                simp only [repair_question, h1 v hne, h2 v, Option.getD_some, hin]
            · -- index out of range: normalized comparison
              rename_i hlt
              simp only [normalized_repair] at h
              split at h
              · exact absurd h (by simp)
              · rename_i xit items heqit
                split at h
                · rename_i xf opt heqf
                  obtain rfl : JVal.obj (dictSet kvs "answer" opt) = q' :=
                    Except.ok.inj h
                  have hin := pyIn_of_mem_iterable _ items opt heqit
                    (List.mem_of_find?_eq_some heqf)
                  simp only [repair_question, h1 opt hne, h2 opt,
                    Option.getD_some, hin]
                · rename_i xf heqf
                  obtain rfl : JVal.obj kvs = q' := Except.ok.inj h
                  simp only [repair_question, heqin, heqtok, heqlen]
                  rw [if_neg hlt]
                  simp only [normalized_repair, heqit, heqf]
        · -- no index token: normalized comparison
          rename_i heqtok
          simp only [normalized_repair] at h
          split at h
          · exact absurd h (by simp)
          · rename_i xit items heqit
            split at h
            · rename_i xf opt heqf
              obtain rfl : JVal.obj (dictSet kvs "answer" opt) = q' :=
                Except.ok.inj h
              have hin := pyIn_of_mem_iterable _ items opt heqit
                (List.mem_of_find?_eq_some heqf)
              simp only [repair_question, h1 opt hne, h2 opt,
                Option.getD_some, hin]
            · rename_i xf heqf
              obtain rfl : JVal.obj kvs = q' := Except.ok.inj h
              simp only [repair_question, heqin, heqtok]
              simp only [normalized_repair, heqit, heqf]

/-- If every question repairs to itself, the scan is the identity. -/
theorem repair_questions_id (xs : List JVal)
    (h : ∀ q ∈ xs, repair_question q = .ok q) :
    repair_questions xs = .ok xs := by
  induction xs with
  | nil => rfl
  | cons q rest ih =>
      have hq := h q (List.mem_cons_self q rest)
      have hr := ih (fun q' hq' => h q' (List.mem_cons_of_mem q hq'))
      simp only [repair_questions, hq, hr]

/-- The question scan is idempotent. -/
theorem repair_questions_idem (xs xs' : List JVal)
    (h : repair_questions xs = .ok xs') :
    repair_questions xs' = .ok xs' := by
  have hf := repair_questions_forall₂ xs xs' h
  apply repair_questions_id
  intro q' hq'
  rcases List.mem_iff_get.mp hq' with ⟨⟨i, hi⟩, hget⟩
  have hi' : i < xs.length := by
    have := hf.length_eq
    omega
  have := hf.get hi' hi
  rw [hget] at this
  exact repair_question_idem _ _ this

/-- An already-consistent question is left untouched by repair (the
exact-match check short-circuits). -/
theorem repair_question_noop (q : JVal) (h : question_consistent q) :
    repair_question q = .ok q := by
  obtain ⟨qkvs, opts, a, rfl, hopts, hlen, hans, hmem⟩ := h
  have hne : opts ≠ [] := by
    intro he
    subst he
    simp at hmem
  have htr : pyTruthy (.arr opts) = true := by
    simp [pyTruthy, hne]
  simp [repair_question, hopts, hans, htr, pyIn, contains_of_mem a opts hmem,
    hmem]

theorem question_consistent_ok (q : JVal) (h : question_consistent q) :
    question_ok q := by
  obtain ⟨qkvs, opts, a, rfl, hopts, hlen, hans, hmem⟩ := h
  refine ⟨qkvs, opts, rfl, by rw [hopts]; rfl, hlen, ?_⟩
  rw [hans]
  simpa using hmem

/-- C8: confirmed.  On a payload with 10 consistent questions (4 options
each, every answer already one of its options) repair changes nothing and
validation succeeds; and whenever repair completes, running it again on
its output is the identity. -/
theorem c8_repair_noop_and_idempotent :
    (∀ (kvs : List (String × JVal)) (qs : List JVal),
      (kvs.map Prod.fst).Nodup →
      dictGet? kvs "questions" = some (.arr qs) →
      qs.length = 10 →
      (∀ q ∈ qs, question_consistent q) →
      repair_quiz_payload (.obj kvs) = .ok (.obj kvs) ∧
      validate_quiz_payload (.obj kvs) = .ok (.obj kvs)) ∧
    (∀ p p' : JVal, repair_quiz_payload p = .ok p' →
      repair_quiz_payload p' = .ok p') := by
  constructor
  · intro kvs qs hnd hget hlen hall
    constructor
    · have hid := repair_questions_id qs
        (fun q hq => repair_question_noop q (hall q hq))
      simp only [repair_quiz_payload, hget, hid]
      rw [dictSet_eq_self kvs "questions" (.arr qs) hget
        (value_unique_of_nodupkeys kvs "questions" (.arr qs) hnd hget)]
    · rw [validate_eq_scan kvs qs hget, if_neg (by omega)]
      rw [check_questions_all_ok qs
        (fun q hq => check_question_ok q (question_consistent_ok q (hall q hq)))]
  · intro p p' h
    cases p with
    | null => simp [repair_quiz_payload] at h
    | bool b => simp [repair_quiz_payload] at h
    | num n => simp [repair_quiz_payload] at h
    | str s => simp [repair_quiz_payload] at h
    | arr xs => simp [repair_quiz_payload] at h
    | obj kvs =>
        rcases repair_payload_cases kvs p' h with ⟨rfl, hcase⟩ |
          ⟨xs, xs', hget, hrq, rfl⟩
        · rcases hcase with h0 | h0 | h0 <;> simp [repair_quiz_payload, h0]
        · have hget' := dictGet?_dictSet_same kvs "questions" (.arr xs')
          have hrq' := repair_questions_idem xs xs' hrq
          simp only [repair_quiz_payload, hget', hrq']
          rw [dictSet_idem]

/-- Witness for C8 at a concrete consistent 10-question payload, plus an
idempotence instance on a payload that repair actually changes. -/
theorem c8_witness :
    (repair_quiz_payload (.obj [("title", .str "T"),
        ("questions", .arr (List.replicate 10 (.obj [("options",
          .arr [.str "A", .str "B", .str "C", .str "D"]),
          ("answer", .str "B")])))]) =
      .ok (.obj [("title", .str "T"),
        ("questions", .arr (List.replicate 10 (.obj [("options",
          .arr [.str "A", .str "B", .str "C", .str "D"]),
          ("answer", .str "B")])))]) ∧
    validate_quiz_payload (.obj [("title", .str "T"),
        ("questions", .arr (List.replicate 10 (.obj [("options",
          .arr [.str "A", .str "B", .str "C", .str "D"]),
          ("answer", .str "B")])))]) =
      .ok (.obj [("title", .str "T"),
        ("questions", .arr (List.replicate 10 (.obj [("options",
          .arr [.str "A", .str "B", .str "C", .str "D"]),
          ("answer", .str "B")])))])) ∧
    repair_quiz_payload (.obj [("questions", .arr [.obj [("options",
        .arr [.str "A", .str "B"]), ("answer", .str "a")]])]) =
      .ok (.obj [("questions", .arr [.obj [("options",
        .arr [.str "A", .str "B"]), ("answer", .str "A")]])]) := by
  constructor
  · refine c8_repair_noop_and_idempotent.1 _ _ (by decide) rfl (by simp) ?_
    intro q hq
    rw [List.eq_of_mem_replicate hq]
    exact ⟨_, [.str "A", .str "B", .str "C", .str "D"], .str "B", rfl, rfl,
      rfl, rfl, by simp⟩
  · exact c8_repair_noop_and_idempotent.2
      (.obj [("questions", .arr [.obj [("options",
        .arr [.str "A", .str "B"]), ("answer", .str "a")]])])
      (.obj [("questions", .arr [.obj [("options",
        .arr [.str "A", .str "B"]), ("answer", .str "A")]])])
      rfl

/-! ## C3: the three extraction tiers -/

theorem rfindBelow_some_spec (cs : List Char) (c : Char) :
    ∀ b e, rfindBelow cs c b = some e →
      cs.get? e = some c ∧ e < b ∧ ∀ j, e < j → j < b → cs.get? j ≠ some c := by
  intro b
  induction b with
  | zero => intro e h; simp [rfindBelow] at h
  | succ b ih =>
      intro e h
      unfold rfindBelow at h
      by_cases hc : cs.get? b = some c
      · rw [if_pos hc] at h
        obtain rfl : b = e := Option.some.inj h
        exact ⟨hc, Nat.lt_succ_self b, fun j h1 h2 => by omega⟩
      · rw [if_neg hc] at h
        obtain ⟨hp, hlt, hno⟩ := ih e h
        refine ⟨hp, Nat.lt_succ_of_lt hlt, ?_⟩
        intro j h1 h2
        by_cases hj : j = b
        · subst hj; exact hc
        · exact hno j h1 (by omega)

theorem rfindBelow_none_spec (cs : List Char) (c : Char) :
    ∀ b, rfindBelow cs c b = none → ∀ j, j < b → cs.get? j ≠ some c := by
  intro b
  induction b with
  | zero => intro _ j hj; omega
  | succ b ih =>
      intro h j hj
      unfold rfindBelow at h
      by_cases hc : cs.get? b = some c
      · rw [if_pos hc] at h; simp at h
      · rw [if_neg hc] at h
        by_cases hjb : j = b
        · subst hjb; exact hc
        · exact ih h j (by omega)

/-- A range filter is insensitive to a hit-free upper segment. -/
theorem filter_range_high (q : Nat → Bool) :
    ∀ b e, e ≤ b → (∀ j, e ≤ j → j < b → q j = false) →
      (List.range b).filter q = (List.range e).filter q := by
  intro b
  induction b with
  | zero =>
      intro e he _
      have : e = 0 := by omega
      subst this
      rfl
  | succ b ih =>
      intro e he hno
      by_cases heb : e = b + 1
      · subst heb; rfl
      · have he' : e ≤ b := by omega
        have hqb : q b = false := hno b he' (Nat.lt_succ_self b)
        rw [List.range_succ, List.filter_append]
        simp only [List.filter, hqb]
        rw [List.append_nil]
        exact ih e he' (fun j h1 h2 => hno j h1 (by omega))

/-- The shrink loop equals the right-to-left scan over all `}` positions:
fuel-indexed version, assuming the current boundary is a `}` position. -/
theorem tier3Loop_eq_spec (loads : String → Option JVal) (cs : List Char)
    (s : Nat) :
    ∀ fuel e, e < fuel → cs.get? e = some '}' →
      tier3Loop loads cs s fuel e =
        (((List.range (e + 1)).filter
            (fun i => decide (cs.get? i = some '}') && decide (s ≤ i))).reverse).findSome?
          (fun i => loads (sliceStr cs s i)) := by
  intro fuel
  induction fuel with
  | zero => intro e he _; omega
  | succ fuel ih =>
      intro e he hpe
      by_cases hse : s ≤ e
      · have hpe2 : cs[e]? = some '}' := by
          rw [← List.get?_eq_getElem?]
          exact hpe
        have hsplit : (List.range (e + 1)).filter
            (fun i => decide (cs.get? i = some '}') && decide (s ≤ i)) =
            ((List.range e).filter
              (fun i => decide (cs.get? i = some '}') && decide (s ≤ i))) ++ [e] := by
          rw [List.range_succ, List.filter_append]
          simp [hpe2, hse]
        rw [hsplit, List.reverse_append]
        simp only [List.reverse_singleton, List.singleton_append,
          List.findSome?_cons]
        simp only [tier3Loop]
        rw [if_pos hse]
        cases hl : loads (sliceStr cs s e) with
        | some v => rfl
        | none =>
            cases hrf : rfindBelow cs '}' e with
            | some e' =>
                obtain ⟨hp', hlt', hno'⟩ := rfindBelow_some_spec cs '}' e e' hrf
                show tier3Loop loads cs s fuel e' =
                  ((List.range e).filter
                    (fun i => decide (cs.get? i = some '}') && decide (s ≤ i))).reverse.findSome?
                      (fun i => loads (sliceStr cs s i))
                rw [ih e' (by omega) hp']
                have heq : (List.range e).filter
                    (fun i => decide (cs.get? i = some '}') && decide (s ≤ i)) =
                    (List.range (e' + 1)).filter
                      (fun i => decide (cs.get? i = some '}') && decide (s ≤ i)) := by
                  apply filter_range_high _ e (e' + 1) (by omega)
                  intro j h1 h2
                  have hj := hno' j (by omega) h2
                  rw [List.get?_eq_getElem?] at hj
                  simp [hj]
                rw [heq]
            | none =>
                have hempty : (List.range e).filter
                    (fun i => decide (cs.get? i = some '}') && decide (s ≤ i)) = [] := by
                  apply List.filter_eq_nil.mpr
                  intro j hj
                  have hj' := rfindBelow_none_spec cs '}' e hrf j (List.mem_range.mp hj)
                  rw [List.get?_eq_getElem?] at hj'
                  simp [hj']
                show (none : Option JVal) =
                  ((List.range e).filter
                    (fun i => decide (cs.get? i = some '}') && decide (s ≤ i))).reverse.findSome?
                      (fun i => loads (sliceStr cs s i))
                rw [hempty]
                rfl
      · have hempty : (List.range (e + 1)).filter
            (fun i => decide (cs.get? i = some '}') && decide (s ≤ i)) = [] := by
          apply List.filter_eq_nil.mpr
          intro j hj
          have hj' := List.mem_range.mp hj
          have hns : ¬ (s ≤ j) := by omega
          simp [hns]
        rw [hempty]
        simp only [tier3Loop]
        rw [if_neg hse]
        rfl

/-- The implemented strategy 3 computes exactly the spec-side scan. -/
theorem tier3_eq_spec (loads : String → Option JVal) (cs : List Char) :
    tier3 loads cs = tier3_spec loads cs := by
  unfold tier3 tier3_spec
  cases hf : findIdx? cs '{' with
  | none => rfl
  | some s =>
      cases hrf : rfindBelow cs '}' cs.length with
      | none =>
          have hempty : (List.range cs.length).filter
              (fun i => decide (cs.get? i = some '}') && decide (s ≤ i)) = [] := by
            apply List.filter_eq_nil.mpr
            intro j hj
            have hj' := rfindBelow_none_spec cs '}' cs.length hrf j (List.mem_range.mp hj)
            rw [List.get?_eq_getElem?] at hj'
            simp [hj']
          show (none : Option JVal) =
            ((List.range cs.length).filter
              (fun i => decide (cs.get? i = some '}') && decide (s ≤ i))).reverse.findSome?
                (fun e => loads (sliceStr cs s e))
          rw [hempty]
          rfl
      | some e =>
          obtain ⟨hp, hlt, hno⟩ := rfindBelow_some_spec cs '}' cs.length e hrf
          show tier3Loop loads cs s (e + 1) e =
            ((List.range cs.length).filter
              (fun i => decide (cs.get? i = some '}') && decide (s ≤ i))).reverse.findSome?
                (fun e => loads (sliceStr cs s e))
          rw [tier3Loop_eq_spec loads cs s (e + 1) e (by omega) hp]
          have heq : (List.range cs.length).filter
              (fun i => decide (cs.get? i = some '}') && decide (s ≤ i)) =
              (List.range (e + 1)).filter
                (fun i => decide (cs.get? i = some '}') && decide (s ≤ i)) := by
            apply filter_range_high _ cs.length (e + 1) (by omega)
            intro j h1 h2
            have hj := hno j (by omega) h2
            rw [List.get?_eq_getElem?] at hj
            simp [hj]
          rw [heq]

/-- A fence match needs an opening brace in the text. -/
theorem matchFenceAt_has_brace (cs g : List Char)
    (h : matchFenceAt cs = some g) : '{' ∈ cs := by
  simp only [matchFenceAt] at h
  split at h
  · split at h
    · rename_i body heq
      have hx : List.Sublist (List.dropWhile isPyWs
          (if startsJsonTag (cs.drop 3) then (cs.drop 3).drop 4
           else cs.drop 3)) cs := by
        refine (List.dropWhile_sublist _).trans ?_
        by_cases hj : startsJsonTag (cs.drop 3)
        · rw [if_pos hj]
          exact (List.drop_sublist _ _).trans (List.drop_sublist _ _)
        · rw [if_neg hj]
          exact List.drop_sublist _ _
      have hmem : '{' ∈ List.dropWhile isPyWs
          (if startsJsonTag (cs.drop 3) then (cs.drop 3).drop 4
           else cs.drop 3) := by
        rw [heq]
        exact List.mem_cons_self _ _
      exact hx.subset hmem
    · exact absurd h (by simp)
  · exact absurd h (by simp)

/-- A fence search success needs an opening brace in the text. -/
theorem searchFence_has_brace (cs g : List Char)
    (h : searchFence cs = some g) : '{' ∈ cs := by
  induction cs with
  | nil => simp [searchFence] at h
  | cons c rest ih =>
      simp only [searchFence] at h
      cases hm : matchFenceAt (c :: rest) with
      | some g' => exact matchFenceAt_has_brace _ g' hm
      | none =>
          rw [hm] at h
          exact List.mem_cons_of_mem c (ih h)

theorem findIdx?_none_of_not_mem (cs : List Char) (c : Char) (h : c ∉ cs) :
    findIdx? cs c = none := by
  unfold findIdx?
  rw [List.findIdx?_eq_none_iff]
  intro x hx
  simp only [decide_eq_false_iff_not]
  intro hc
  exact h (hc ▸ hx)

/-- C3 amended: the three tiers are tried in order with the first success
winning — a direct whole-string parse wins outright; otherwise a fenced
block whose group parses wins; otherwise the first-`{`-to-last-`}` shrink
loop (proved equal to the right-to-left scan over all `}` candidates,
`tier3_spec`) decides; if everything fails the stage raises
`PipelineError("Gemini returned unexpected format (no JSON).")`.  In
particular an input with no `{` that also fails the direct parse raises
that error — but (contrary to the claim as stated) a brace-free input
that is itself valid JSON, e.g. a bare array, succeeds at tier 1. -/
theorem c3_amended_extraction_tiers :
    (∀ (loads : String → Option JVal) (text : String) (v : JVal),
      loads text = some v → parse_json_loose loads text = .ok v) ∧
    (∀ (loads : String → Option JVal) (text : String) (g : List Char) (v : JVal),
      loads text = none → searchFence text.data = some g →
      loads (String.mk g) = some v → parse_json_loose loads text = .ok v) ∧
    (∀ (loads : String → Option JVal) (cs : List Char),
      tier3 loads cs = tier3_spec loads cs) ∧
    (∀ (loads : String → Option JVal) (text : String) (v : JVal),
      loads text = none →
      (∀ g, searchFence text.data = some g → loads (String.mk g) = none) →
      tier3 loads text.data = some v →
      parse_json_loose loads text = .ok v) ∧
    (∀ (loads : String → Option JVal) (text : String),
      loads text = none →
      (∀ g, searchFence text.data = some g → loads (String.mk g) = none) →
      tier3 loads text.data = none →
      parse_json_loose loads text =
        .error (.pipelineError "Gemini returned unexpected format (no JSON).")) ∧
    (∀ (loads : String → Option JVal) (text : String),
      loads text = none → '{' ∉ text.data →
      parse_json_loose loads text =
        .error (.pipelineError "Gemini returned unexpected format (no JSON).")) := by
  refine ⟨?_, ?_, ?_, ?_, ?_, ?_⟩
  · intro loads text v h
    simp only [parse_json_loose, h]
  · intro loads text g v h1 h2 h3
    simp only [parse_json_loose, h1, h2, h3]
  · intro loads cs
    exact tier3_eq_spec loads cs
  · intro loads text v h1 h2 h3
    simp only [parse_json_loose, h1]
    cases hs : searchFence text.data with
    | none => simp only [hs, h3]
    | some g => simp only [hs, h2 g hs, h3]
  · intro loads text h1 h2 h3
    simp only [parse_json_loose, h1]
    cases hs : searchFence text.data with
    | none => simp only [hs, h3]
    | some g => simp only [hs, h2 g hs, h3]
  · intro loads text h1 hnot
    have hsf : searchFence text.data = none := by
      cases hs : searchFence text.data with
      | none => rfl
      | some g => exact absurd (searchFence_has_brace _ g hs) hnot
    have hfi : findIdx? text.data '{' = none := findIdx?_none_of_not_mem _ _ hnot
    have ht3 : tier3 loads text.data = none := by
      simp only [tier3, hfi]
    simp only [parse_json_loose, h1, hsf, ht3]

/-- C3: refuted as stated on its "in particular" part.  The input "[1]"
contains no brace at all, yet extraction does not raise: the whole string
parses as JSON at tier 1 and the bare array is returned. -/
theorem c3_counterexample :
    ('{' ∉ "[1]".data ∧ '}' ∉ "[1]".data) ∧
    parse_json_loose jsonLoads "[1]" = .ok (.arr [.num 1]) := by
  exact ⟨by decide, rfl⟩

/-- Witness for C3 at the repository's own test input: the literal
"not-json-response" fails every tier and raises the no-JSON error. -/
theorem c3_witness :
    parse_json_loose jsonLoads "not-json-response" =
      .error (.pipelineError "Gemini returned unexpected format (no JSON).") :=
  c3_amended_extraction_tiers.2.2.2.2.2 jsonLoads "not-json-response" rfl
    (by decide)

/-! ## C9: unlabeled fenced blocks -/

theorem dropWhile_append_all (p : Char → Bool) (l1 l2 : List Char)
    (h : ∀ c ∈ l1, p c = true) :
    List.dropWhile p (l1 ++ l2) = List.dropWhile p l2 := by
  induction l1 with
  | nil => rfl
  | cons c l1' ih =>
      rw [List.cons_append, List.dropWhile_cons]
      simp only [h c (List.mem_cons_self c l1'), if_true]
      exact ih (fun c' hc' => h c' (List.mem_cons_of_mem c hc'))

theorem startsFence_cons_ne (c : Char) (l : List Char) (h : c ≠ '`') :
    startsFence (c :: l) = false := by
  simp [startsFence, h]

theorem matchFenceAt_cons_ne (c : Char) (l : List Char) (h : c ≠ '`') :
    matchFenceAt (c :: l) = none := by
  simp [matchFenceAt, startsFence_cons_ne c l h]

theorem searchFence_skip (pre rest : List Char) (h : ∀ c ∈ pre, c ≠ '`') :
    searchFence (pre ++ rest) = searchFence rest := by
  induction pre with
  | nil => rfl
  | cons c pre' ih =>
      rw [List.cons_append]
      simp only [searchFence,
        matchFenceAt_cons_ne c _ (h c (List.mem_cons_self c pre'))]
      exact ih (fun c' hc' => h c' (List.mem_cons_of_mem c hc'))

theorem startsJsonTag_cons_ne (c : Char) (l : List Char) (h : c.toLower ≠ 'j') :
    startsJsonTag (c :: l) = false := by
  simp [startsJsonTag, h]

theorem isPyWs_toLower_ne_j (c : Char) (h : isPyWs c = true) : c.toLower ≠ 'j' := by
  simp only [isPyWs, Bool.or_eq_true, decide_eq_true_eq] at h
  rcases h with ((((h | h) | h) | h) | h) | h <;> subst h <;> decide

/-- Inside the object body (no backticks), no position looks like a
closing `}` followed by whitespace and a fence, because the object's own
final `}` intervenes as a non-whitespace, non-backtick character. -/
theorem noFence_inside (l : List Char) (rest' : List Char)
    (hl : ∀ c ∈ l, c ≠ '`') :
    startsFence (List.dropWhile isPyWs (l ++ '}' :: rest')) = false := by
  induction l with
  | nil =>
      rw [List.nil_append, List.dropWhile_cons]
      simp only [show isPyWs '}' = false by decide, if_false]
      simp [startsFence]
  | cons x l' ih =>
      rw [List.cons_append, List.dropWhile_cons]
      by_cases hx : isPyWs x
      · simp only [hx, if_true]
        exact ih (fun c hc => hl c (List.mem_cons_of_mem x hc))
      · simp only [hx, if_false]
        exact startsFence_cons_ne x _ (hl x (List.mem_cons_self x l'))

/-- The lazy group scan runs through the whole backtick-free body and
stops exactly at the object's closing brace. -/
theorem fenceBody_through (rest2 : List Char)
    (hrest : startsFence (List.dropWhile isPyWs rest2) = true) :
    ∀ (mid acc : List Char), (∀ c ∈ mid, c ≠ '`') →
      fenceBody acc (mid ++ '}' :: rest2) = some (acc ++ mid) := by
  intro mid
  induction mid with
  | nil =>
      intro acc _
      rw [List.nil_append, List.append_nil]
      simp [fenceBody, hrest]
  | cons c mid' ih =>
      intro acc hmid
      rw [List.cons_append]
      simp only [fenceBody]
      by_cases hcb : c = '}'
      · subst hcb
        have hsf := noFence_inside mid' rest2
          (fun c' hc' => hmid c' (List.mem_cons_of_mem _ hc'))
        have hcond : (decide (('}' : Char) = '}') &&
            startsFence (List.dropWhile isPyWs (mid' ++ '}' :: rest2))) = false := by
          simp [hsf]
        rw [if_neg (by rw [hcond]; exact Bool.false_ne_true)]
        rw [ih (acc ++ ['}']) (fun c' hc' => hmid c' (List.mem_cons_of_mem _ hc'))]
        simp
      · have hcond : (decide (c = '}') &&
            startsFence (List.dropWhile isPyWs (mid' ++ '}' :: rest2))) = false := by
          simp [hcb]
        rw [if_neg (by rw [hcond]; exact Bool.false_ne_true)]
        rw [ih (acc ++ [c]) (fun c' hc' => hmid c' (List.mem_cons_of_mem c hc'))]
        simp

/-- At the opening fence, the regex matches and captures exactly the
wrapped object. -/
theorem matchFenceAt_fence (w1 mid w2 post : List Char)
    (hw1 : ∀ c ∈ w1, isPyWs c = true) (hw2 : ∀ c ∈ w2, isPyWs c = true)
    (hmid : ∀ c ∈ mid, c ≠ '`') :
    matchFenceAt ('`' :: '`' :: '`' ::
        (w1 ++ '{' :: (mid ++ '}' :: (w2 ++ '`' :: '`' :: '`' :: post)))) =
      some ('{' :: mid ++ ['}']) := by
  have hfence : startsFence ('`' :: '`' :: '`' ::
      (w1 ++ '{' :: (mid ++ '}' :: (w2 ++ '`' :: '`' :: '`' :: post)))) = true := rfl
  have hjson : startsJsonTag
      (w1 ++ '{' :: (mid ++ '}' :: (w2 ++ '`' :: '`' :: '`' :: post))) = false := by
    cases w1 with
    | nil =>
        rw [List.nil_append]
        exact startsJsonTag_cons_ne '{' _ (by decide)
    | cons c w1' =>
        rw [List.cons_append]
        exact startsJsonTag_cons_ne c _
          (isPyWs_toLower_ne_j c (hw1 c (List.mem_cons_self c w1')))
  have hdrop : List.dropWhile isPyWs
      (w1 ++ '{' :: (mid ++ '}' :: (w2 ++ '`' :: '`' :: '`' :: post))) =
      '{' :: (mid ++ '}' :: (w2 ++ '`' :: '`' :: '`' :: post)) := by
    rw [dropWhile_append_all isPyWs w1 _ hw1, List.dropWhile_cons]
    simp [show isPyWs '{' = false by decide]
  have hrest : startsFence (List.dropWhile isPyWs
      (w2 ++ '`' :: '`' :: '`' :: post)) = true := by
    rw [dropWhile_append_all isPyWs w2 _ hw2, List.dropWhile_cons]
    simp [show isPyWs '`' = false by decide, startsFence]
  have hbody := fenceBody_through (w2 ++ '`' :: '`' :: '`' :: post) hrest mid [] hmid
  simp only [matchFenceAt]
  rw [if_pos hfence]
  simp only [List.drop_succ_cons, List.drop_zero]
  rw [if_neg (by rw [hjson]; exact Bool.false_ne_true)]
  rw [hdrop]
  show (match fenceBody []
      (mid ++ '}' :: (w2 ++ '`' :: '`' :: '`' :: post)) with
    | some inner => some ('{' :: inner ++ ['}'])
    | none => none) = some ('{' :: mid ++ ['}'])
  rw [hbody]
  rfl

/-- C9 amended: for every input made of a fenced JSON object with
surrounding prose — backtick-free prose before the opening plain ```
fence (no json label), the object `{mid}` backtick-free, whitespace
padding inside the fences, anything after the closing fence — where the
whole input does not itself parse as JSON (tier 1 fails), extraction
succeeds at the fenced-block tier and returns the parsed object. -/
theorem c9_amended_unlabeled_fence :
    ∀ (loads : String → Option JVal) (pre w1 mid w2 post : List Char) (v : JVal),
      (∀ c ∈ pre, c ≠ '`') → (∀ c ∈ mid, c ≠ '`') →
      (∀ c ∈ w1, isPyWs c = true) → (∀ c ∈ w2, isPyWs c = true) →
      loads (String.mk (pre ++ '`' :: '`' :: '`' ::
        (w1 ++ '{' :: (mid ++ '}' :: (w2 ++ '`' :: '`' :: '`' :: post))))) = none →
      loads (String.mk ('{' :: mid ++ ['}'])) = some v →
      parse_json_loose loads (String.mk (pre ++ '`' :: '`' :: '`' ::
        (w1 ++ '{' :: (mid ++ '}' :: (w2 ++ '`' :: '`' :: '`' :: post))))) =
        .ok v := by
  intro loads pre w1 mid w2 post v hpre hmid hw1 hw2 hnone hobj
  have hsf : searchFence (String.mk (pre ++ '`' :: '`' :: '`' ::
      (w1 ++ '{' :: (mid ++ '}' :: (w2 ++ '`' :: '`' :: '`' :: post))))).data =
      some ('{' :: mid ++ ['}']) := by
    show searchFence (pre ++ '`' :: '`' :: '`' ::
      (w1 ++ '{' :: (mid ++ '}' :: (w2 ++ '`' :: '`' :: '`' :: post)))) = _
    rw [searchFence_skip pre _ hpre]
    simp only [searchFence, matchFenceAt_fence w1 mid w2 post hw1 hw2 hmid]
  simp only [parse_json_loose, hnone, hsf, hobj]

/-- C9: refuted as stated.  The input `["` + ```` ``` ```` + `{}` +
```` ``` ```` + `"]` is a valid JSON object (`{}`) wrapped in plain
fences with surrounding prose, yet extraction returns the surrounding
JSON array at tier 1, not the fenced object — tier 1 takes precedence
over the fenced-block tier. -/
theorem c9_counterexample :
    parse_json_loose jsonLoads "[\"```\x7b\x7d```\"]" =
      .ok (.arr [.str "```\x7b\x7d```"]) ∧
    searchFence ("[\"```\x7b\x7d```\"]").data = some ['{', '}'] ∧
    (JVal.arr [.str "```\x7b\x7d```"]) ≠ (.obj []) := by
  exact ⟨rfl, rfl, by decide⟩

/-- Witness for C9 at a concrete prose-wrapped unlabeled fence. -/
theorem c9_witness :
    parse_json_loose jsonLoads (String.mk ("Here: ".data ++ '`' :: '`' :: '`' ::
        (['\n'] ++ '{' :: ("\"a\": 1".data ++ '}' ::
          (['\n'] ++ '`' :: '`' :: '`' :: " thanks".data))))) =
      .ok (.obj [("a", .num 1)]) :=
  c9_amended_unlabeled_fence jsonLoads "Here: ".data ['\n'] "\"a\": 1".data
    ['\n'] " thanks".data (.obj [("a", .num 1)])
    (by decide) (by decide) (by decide) (by decide) rfl rfl
